import Mathlib

/-!
Verification of the scheduling decision subsystem of this repository.

The development shallowly embeds the alternate scheduling engine
(`AltScheduler.Solve` and `AltScheduler.add`) and the caller-level
`Provisioner.ComputeSchedulingDecision`, together with the helper structures
they use (remaining-resources ledger, reservation counters, topology counts,
node-claim templates).  Functions that the engine calls but whose bodies are
not part of this repository under `src/` (they live in the upstream scheduler
package) are modelled from the specification and marked as such in their doc
comments.  Workloads (pods) are modelled by a unique identifier and a list of
named integer resource requests; resource quantities are integers.
-/

namespace Karpenter

/-! ## Resource lists and counter maps -/

/-- A resource list maps resource names to integer quantities, in order.
Models `corev1.ResourceList` with association-list semantics: lookup finds
the first entry, updates replace the first entry or append. -/
abbrev ResourceList := List (String × Int)

/-- Quantity of resource `k` in `rl`; absent keys read as zero, matching the
Go zero-value semantics of `resource.Quantity` map access. -/
def getQuantity : ResourceList → String → Int
  | [], _ => 0
  | kv :: rest, k => if kv.1 = k then kv.2 else getQuantity rest k

/-- Pointwise sum of two resource lists (used for daemon overhead plus pod
requests).  Keys of `b` missing from `a` are appended. -/
def addResourceLists (a b : ResourceList) : ResourceList :=
  a.map (fun kv => (kv.1, kv.2 + getQuantity b kv.1)) ++
    b.filter (fun kv => (a.find? (fun kv2 => kv2.1 = kv.1)).isNone)

/-- An integer-valued counter map (topology domain counts, reservation
counts). -/
abbrev CountMap := List (String × Int)

/-- Counter value for key `k`; zero when absent. -/
def lookupCount : CountMap → String → Int
  | [], _ => 0
  | kv :: rest, k => if kv.1 = k then kv.2 else lookupCount rest k

/-- Add `d` to the counter of `k`, materializing the entry when absent. -/
def bump : CountMap → String → Int → CountMap
  | [], k, d => [(k, d)]
  | kv :: rest, k, d => if kv.1 = k then (kv.1, kv.2 + d) :: rest else kv :: bump rest k d

/-- Release one reserved unit for each name in the list (in order). -/
def releaseAll (m : CountMap) (names : List String) : CountMap :=
  names.foldl (fun acc n => bump acc n 1) m

/-- Take one reserved unit for each name in the list (in order). -/
def reserveAll (m : CountMap) (names : List String) : CountMap :=
  names.foldl (fun acc n => bump acc n (-1)) m

/-- Association list from pool name to its remaining resource budget.
Models the Go map `remainingResources map[string]corev1.ResourceList`. -/
abbrev LedgerMap := List (String × ResourceList)

/-- First-entry lookup in the ledger, `none` when the pool has no entry. -/
def lookupRL : LedgerMap → String → Option ResourceList
  | [], _ => none
  | pr :: rest, k => if pr.1 = k then some pr.2 else lookupRL rest k

/-- Lookup with the Go nil-map default of an empty resource list. -/
def lookupRLD (m : LedgerMap) (k : String) : ResourceList :=
  (lookupRL m k).getD []

/-- Replace the first entry for `k`, or append it, like a Go map write. -/
def upsertRL : LedgerMap → String → ResourceList → LedgerMap
  | [], k, v => [(k, v)]
  | pr :: rest, k, v => if pr.1 = k then (k, v) :: rest else pr :: upsertRL rest k v

/-! ## Data model -/

/-- An instance type: a candidate node shape with capacity, zone/offering
metadata reduced to labels, a price used by the finalize ordering, and
reservation backing (flag plus remaining reserved units in the catalog). -/
structure InstanceType where
  itName : String
  labels : List (String × String)
  capacity : ResourceList
  price : Int
  reservedOffering : Bool
  reservedUnits : Int
deriving Repr, DecidableEq

/-- A workload (pod): unique identifier and resource requests. -/
structure Pod where
  uid : Nat
  requests : ResourceList
deriving Repr, DecidableEq

/-- A pool (NodePool): name, relative weight, resource-limit budget, and
compatibility requirements (key mapped to the allowed label values). -/
structure NodePool where
  npName : String
  weight : Int
  limits : ResourceList
  requirements : List (String × List String)
deriving Repr, DecidableEq

/-- One per eligible pool: the pool name, weight, and the filtered
instance-type candidate list.  Mirrors `NodeClaimTemplate` fields used by
`AltScheduler.add`. -/
structure NodeClaimTemplate where
  nodePoolName : String
  weight : Int
  instanceTypeOptions : List InstanceType
deriving Repr, DecidableEq

/-- A simulated node under construction: pool affiliation, hostname (its
topology domain), the shrinking instance-type option set, assigned pods, and
the reservation units it holds (for `Destroy`). -/
structure NodeClaim where
  nodePoolName : String
  hostname : String
  instanceTypeOptions : List InstanceType
  pods : List Pod
  reservedITs : List String
deriving Repr, DecidableEq

/-- A binding of workloads onto an already-running node. -/
structure ExistingNode where
  nodeName : String
  pods : List Pod
deriving Repr, DecidableEq

/-- The reserved-offering fallback policy (spec section 4.3): `strict` only
accepts reserved offerings (the `DisableReservedCapacityFallback` setting),
`bestEffort` prefers reserved and falls back, `disabled` ignores reservation
state entirely. -/
inductive ReservedOfferingMode
  | strict
  | bestEffort
  | disabled
deriving Repr, DecidableEq

/-- Errors produced by a single `NodeClaim.Add` attempt. -/
inductive AddError
  | incompatibleWithInstanceTypes
  | reservedOfferingUnavailable
deriving Repr, DecidableEq

/-- Recognizes the distinguished reserved-offering error, as
`IsReservedOfferingError` does in the source. -/
def IsReservedOfferingError : AddError → Bool
  | .reservedOfferingUnavailable => true
  | .incompatibleWithInstanceTypes => false

/-- One cause inside the per-workload multi-error accumulated by
`AltScheduler.add`: the limits-exceeded message, the wrapped
reserved-offering error, or the wrapped ordinary incompatibility (which
carries the daemon overhead, as the source formats into the message). -/
inductive TemplateErr
  | limitsExceeded (pool : String)
  | reservedOffering (pool : String) (e : AddError)
  | incompatible (pool : String) (overhead : ResourceList) (e : AddError)
deriving Repr, DecidableEq

/-- Recognizes a reserved-offering entry of the multi-error. -/
def TemplateErr.isReservedEntry : TemplateErr → Bool
  | .reservedOffering _ _ => true
  | _ => false

/-- A placement attempt recorded while `AltScheduler.add` runs: trying an
already-created in-flight claim, or trying to instantiate a template. -/
inductive Attempt
  | inflightClaim (host : String)
  | fromTemplate (pool : String)
deriving Repr, DecidableEq

/-- Recognizes an in-flight-claim attempt. -/
def Attempt.isInflight : Attempt → Bool
  | .inflightClaim _ => true
  | .fromTemplate _ => false

/-! ## Spec-modelled helpers from the upstream scheduler package

The following functions are called from `AltScheduler.add` and
`NewAltScheduler` but their bodies are not under `src/`. -/

/-- Modelled from the spec: `filterInstanceTypesByRequirements` keeps the
instance types that pass the pool compatibility requirement set (each
required key must carry one of the allowed label values). -/
def compatibleWith (reqs : List (String × List String)) (it : InstanceType) : Bool :=
  reqs.all (fun r =>
    match (it.labels.find? (fun l => l.1 = r.1)).map Prod.snd with
    | some v => r.2.contains v
    | none => false)

/-- Modelled from the spec: initial compatibility filtering of the catalog
of a pool against the pool requirements (`filterInstanceTypesByRequirements`
in the source, whose body is not under `src/`). -/
def filterInstanceTypesByRequirements (its : List InstanceType)
    (reqs : List (String × List String)) : List InstanceType :=
  its.filter (compatibleWith reqs)

/-- Modelled from the spec: `filterByRemainingResources` keeps only the
instance types whose resource footprint still fits under the remaining
ledger value of the pool, on every dimension the ledger tracks. -/
def filterByRemainingResources (its : List InstanceType)
    (remaining : ResourceList) : List InstanceType :=
  its.filter (fun it => remaining.all (fun kv => getQuantity it.capacity kv.1 ≤ kv.2))

/-- Worst-case quantity of resource `k` over a set of instance types (the
maximum capacity, seeded at zero as quantities are non-negative). -/
def maxCapacity (its : List InstanceType) (k : String) : Int :=
  its.foldl (fun acc it => max acc (getQuantity it.capacity k)) 0

/-- Modelled from the spec: `subtractMax` decrements the remaining budget by
the worst-case (maximum) resource footprint across the remaining
instance-type options of a claim; with no options the budget is returned
unchanged. -/
def subtractMax (remaining : ResourceList) (its : List InstanceType) : ResourceList :=
  if its.isEmpty then remaining
  else remaining.map (fun kv => (kv.1, kv.2 - maxCapacity its kv.1))

/-! ## NodeClaim construction, placement and destruction -/

/-- Does the instance type hold the daemon overhead, the pods already on the
claim, and the new pod, with non-negative remainder on every requested
dimension? -/
def fitsInstance (overhead : ResourceList) (existing : List Pod) (p : Pod)
    (it : InstanceType) : Bool :=
  let demand := (existing ++ [p]).foldl (fun acc q => addResourceLists acc q.requests) overhead
  demand.all (fun kv => kv.2 ≤ getQuantity it.capacity kv.1)

/-- Modelled from the spec: `NewNodeClaim` builds a fresh simulated node
from a template with the given candidate options and registers the claim
hostname domain in the topology tracker. -/
def NewNodeClaim (t : NodeClaimTemplate) (topology : CountMap)
    (its : List InstanceType) (host : String) : NodeClaim × CountMap :=
  ({ nodePoolName := t.nodePoolName, hostname := host, instanceTypeOptions := its,
     pods := [], reservedITs := [] }, bump topology host 1)

/-- Commit step of `NodeClaim.Add`: shrink the option set to the chosen
candidates, append the workload, and take one reserved unit for each
reservation-backed candidate, recording them on the claim. -/
def NodeClaim.commit (nc : NodeClaim) (p : Pod) (cands : List InstanceType)
    (taken : List String) (reservations : CountMap) : NodeClaim × CountMap :=
  ({ nc with instanceTypeOptions := cands, pods := nc.pods ++ [p],
             reservedITs := nc.reservedITs ++ taken },
   reserveAll reservations taken)

/-- Modelled from the spec: `NodeClaim.Add` (spec section 4.5), whose body
is not under `src/`.  It narrows the option set to the instance types that
fit the workload plus overhead, consults the reservation counters per the
active mode, and either fully commits or fails leaving the claim unchanged.
Under `strict` mode only reserved offerings with remaining units are
accepted and their exhaustion signals the distinguished reserved-offering
error; under `bestEffort` reserved offerings are preferred with fallback to
on-demand ones; under `disabled` reservation state is ignored. -/
def NodeClaim.Add (mode : ReservedOfferingMode) (reservations : CountMap)
    (overhead : ResourceList) (nc : NodeClaim) (p : Pod) :
    Except AddError (NodeClaim × CountMap) :=
  let narrowed := nc.instanceTypeOptions.filter (fitsInstance overhead nc.pods p)
  if narrowed.isEmpty then .error .incompatibleWithInstanceTypes
  else
    let avail := narrowed.filter
      (fun it => it.reservedOffering && 0 < lookupCount reservations it.itName)
    match mode with
    | .strict =>
        if avail.isEmpty then .error .reservedOfferingUnavailable
        else .ok (NodeClaim.commit nc p avail (avail.map (·.itName)) reservations)
    | .bestEffort =>
        if avail.isEmpty then
          let onDemand := narrowed.filter (fun it => !it.reservedOffering)
          if onDemand.isEmpty then .error .reservedOfferingUnavailable
          else .ok (NodeClaim.commit nc p onDemand [] reservations)
        else .ok (NodeClaim.commit nc p avail (avail.map (·.itName)) reservations)
    | .disabled => .ok (NodeClaim.commit nc p narrowed [] reservations)

/-- Modelled from the spec: `NodeClaim.Destroy` reverses all tentative
bookkeeping attributable to the claim: the topology count of its hostname
domain and the reservation units it holds. -/
def NodeClaim.Destroy (nc : NodeClaim) (topology : CountMap)
    (reservations : CountMap) : CountMap × CountMap :=
  (bump topology nc.hostname (-1), releaseAll reservations nc.reservedITs)

/-- Modelled from the spec: `FinalizeScheduling` orders the remaining
instance-type options by the cost heuristic (ascending price) once all
workloads of the claim are known. -/
def insertByPrice (it : InstanceType) : List InstanceType → List InstanceType
  | [] => [it]
  | x :: xs => if it.price ≤ x.price then it :: x :: xs else x :: insertByPrice it xs

/-- Insertion sort of instance types by ascending price. -/
def sortByPrice (its : List InstanceType) : List InstanceType :=
  its.foldr insertByPrice []

/-- Modelled from the spec: `NodeClaim.FinalizeScheduling` sorts the final
option list by the cost heuristic; the assigned pods are untouched. -/
def NodeClaim.FinalizeScheduling (nc : NodeClaim) : NodeClaim :=
  { nc with instanceTypeOptions := sortByPrice nc.instanceTypeOptions }

/-! ## The alternate scheduler -/

/-- The mutable state of `AltScheduler` used by `Solve` and `add`: the
templates, the remaining-resources ledger, the per-template daemon overhead
(keyed here by pool name, as templates are per pool), the reservation
counters, the fallback mode, the topology counts, and the accumulated new
claims and existing-node bindings. -/
structure AltScheduler where
  nodeClaimTemplates : List NodeClaimTemplate
  remainingResources : LedgerMap
  daemonOverhead : List (String × ResourceList)
  reservations : CountMap
  reservedOfferingMode : ReservedOfferingMode
  topology : CountMap
  newNodeClaims : List NodeClaim
  existingNodes : List ExistingNode
deriving Repr, DecidableEq

/-- Daemon overhead for the template, with the Go nil default. -/
def overheadFor (s : AltScheduler) (t : NodeClaimTemplate) : ResourceList :=
  ((s.daemonOverhead.find? (fun pr => pr.1 = t.nodePoolName)).map Prod.snd).getD []

/-- Hostname generated for the next tentative claim of a template. -/
def nextHostname (s : AltScheduler) (t : NodeClaimTemplate) : String :=
  t.nodePoolName ++ "/" ++ toString s.newNodeClaims.length

/-- Outcome of trying one template inside `AltScheduler.add`: `skip` means
record the error and continue to the next template, `halt` means record the
distinguished reserved-offering error and break out of the template loop,
`placed` means the pod was committed to a new claim and `add` returns. -/
inductive StepOut
  | skip (e : TemplateErr)
  | halt (e : TemplateErr)
  | placed
deriving Repr, DecidableEq

/-- The creation part of one template iteration of `AltScheduler.add`
(source lines 196-221): build a fresh claim over the given candidate
instance types, try `NodeClaim.Add`; on failure destroy the claim and wrap
the error (halting on the reserved-offering error as the source `break`
does); on success append the claim and decrement the ledger entry of the
pool by `subtractMax` over the claim options. -/
def addCreate (s : AltScheduler) (p : Pod) (t : NodeClaimTemplate)
    (instanceTypes : List InstanceType) : AltScheduler × StepOut :=
  let created := NewNodeClaim t s.topology instanceTypes (nextHostname s t)
  let s1 : AltScheduler := { s with topology := created.2 }
  match NodeClaim.Add s.reservedOfferingMode s1.reservations (overheadFor s t) created.1 p with
  | .error e =>
      let destroyed := NodeClaim.Destroy created.1 s1.topology s1.reservations
      let s2 : AltScheduler := { s1 with topology := destroyed.1, reservations := destroyed.2 }
      if IsReservedOfferingError e then (s2, .halt (.reservedOffering t.nodePoolName e))
      else (s2, .skip (.incompatible t.nodePoolName (overheadFor s t) e))
  | .ok pr =>
      ({ s1 with
          reservations := pr.2,
          newNodeClaims := s1.newNodeClaims ++ [pr.1],
          remainingResources := upsertRL s1.remainingResources t.nodePoolName
            (subtractMax (lookupRLD s1.remainingResources t.nodePoolName)
              pr.1.instanceTypeOptions) }, .placed)

/-- One template iteration of `AltScheduler.add` (source lines 179-221):
when the pool has a ledger entry, filter the template options by the
remaining budget and skip with the limits-exceeded error when the filter
empties the set; otherwise proceed to claim creation over the filtered
(or, without a ledger entry, the full) option set. -/
def addStep (s : AltScheduler) (p : Pod) (t : NodeClaimTemplate) :
    AltScheduler × StepOut :=
  match lookupRL s.remainingResources t.nodePoolName with
  | some remaining =>
      if (filterByRemainingResources t.instanceTypeOptions remaining).isEmpty then
        (s, .skip (.limitsExceeded t.nodePoolName))
      else addCreate s p t (filterByRemainingResources t.instanceTypeOptions remaining)
  | none => addCreate s p t t.instanceTypeOptions

/-- The template loop of `AltScheduler.add` (source lines 175-224): try the
templates in order via `addStep`, accumulating one wrapped error per failed
template and recording each attempt; stop at the first success (returning
`none`) or at a reserved-offering error (returning the accumulated
multi-error).  Like a nil Go `multierr`, the result is `none` when the loop
ends with no recorded error, which happens exactly when the template list
is exhausted without any error, in particular when it was empty. -/
def AltScheduler.addGo (p : Pod) :
    List NodeClaimTemplate → AltScheduler → List TemplateErr → List Attempt →
    (AltScheduler × Option (List TemplateErr)) × List Attempt
  | [], s, errs, tried => ((s, if errs.isEmpty then none else some errs), tried)
  | t :: rest, s, errs, tried =>
    match addStep s p t with
    | (s2, .skip e) =>
        AltScheduler.addGo p rest s2 (errs ++ [e]) (tried ++ [.fromTemplate t.nodePoolName])
    | (s2, .halt e) =>
        ((s2, some (errs ++ [e])), tried ++ [.fromTemplate t.nodePoolName])
    | (s2, .placed) => ((s2, none), tried ++ [.fromTemplate t.nodePoolName])

/-- `AltScheduler.add`: place one pod, returning the updated state and the
per-pod error (`none` when the pod was placed, or when the template list is
empty, since a nil multi-error is returned in that case). -/
def AltScheduler.add (s : AltScheduler) (p : Pod) :
    AltScheduler × Option (List TemplateErr) :=
  (AltScheduler.addGo p s.nodeClaimTemplates s [] []).1

/-- The placement attempts `AltScheduler.add` records for one pod, in
order. -/
def AltScheduler.addAttempts (s : AltScheduler) (p : Pod) : List Attempt :=
  (AltScheduler.addGo p s.nodeClaimTemplates s [] []).2

/-! ## The solve loop -/

/-- The two context errors Go can report: parent cancellation and deadline
expiry of the one-minute timeout the caller wraps around `Solve`. -/
inductive CtxError
  | canceled
  | deadlineExceeded
deriving Repr, DecidableEq

/-- A deadline or cancellation signal that trips at a given loop iteration
(`none` never trips).  Loop iterations are the time unit of the model. -/
structure Ctx where
  cancelAt : Option Nat
  deadlineAt : Option Nat
deriving Repr, DecidableEq

/-- Has the (optional) trip point been reached by iteration `i`? -/
def tripped : Option Nat → Nat → Bool
  | none, _ => false
  | some t, i => t ≤ i

/-- `ctx.Err()` observed at loop iteration `i`: parent cancellation takes
effect as `canceled`, the timeout as `deadlineExceeded`. -/
def Ctx.errAt (c : Ctx) (i : Nat) : Option CtxError :=
  if tripped c.cancelAt i then some .canceled
  else if tripped c.deadlineAt i then some .deadlineExceeded
  else none

/-- The `Solve` results: new claims, existing-node bindings, and the map
from pod to the terminal multi-error (represented in insertion order). -/
structure Results where
  NewNodeClaims : List NodeClaim
  ExistingNodes : List ExistingNode
  PodErrors : List (Pod × List TemplateErr)
deriving Repr, DecidableEq

/-- The loop of `AltScheduler.Solve` (source lines 133-162): each iteration
first checks the cancellation signal and breaks immediately when it
tripped, then pops the next pod (the queue order is the input order: the
spec fixes the work queue, whose body is not under `src/`, to a stable
deterministic input order), places it with `add`, and records the error, if
any, against the pod.  Returns the final state, the accumulated pod errors,
the queue remainder at exit, and the iteration count at exit. -/
def AltScheduler.solveLoop (c : Ctx) :
    List Pod → Nat → AltScheduler → List (Pod × List TemplateErr) →
    AltScheduler × List (Pod × List TemplateErr) × List Pod × Nat
  | queue, i, s, podErrors =>
    if (c.errAt i).isSome then (s, podErrors, queue, i)
    else
      match queue with
      | [] => (s, podErrors, [], i)
      | p :: rest =>
        match AltScheduler.add s p with
        | (s2, none) => AltScheduler.solveLoop c rest (i + 1) s2 podErrors
        | (s2, some errs) =>
            AltScheduler.solveLoop c rest (i + 1) s2 (podErrors ++ [(p, errs)])

/-- The sequence of scheduler states the solve loop passes through (the
state at every loop iteration boundary, ending with the state at exit). -/
def AltScheduler.solveStates (c : Ctx) :
    List Pod → Nat → AltScheduler → List AltScheduler
  | queue, i, s =>
    if (c.errAt i).isSome then [s]
    else
      match queue with
      | [] => [s]
      | p :: rest => s :: AltScheduler.solveStates c rest (i + 1) (AltScheduler.add s p).1

/-- `AltScheduler.Solve` (source lines 114-172): run the loop over the
input pods, finalize every claim created during this solve, and return the
results together with the context error observed at exit. -/
def AltScheduler.Solve (c : Ctx) (s : AltScheduler) (pods : List Pod) :
    Results × Option CtxError :=
  let out := AltScheduler.solveLoop c pods 0 s []
  ({ NewNodeClaims := out.1.newNodeClaims.map NodeClaim.FinalizeScheduling,
     ExistingNodes := out.1.existingNodes,
     PodErrors := out.2.1 }, c.errAt out.2.2.2)

/-! ## Construction -/

/-- The per-pool instance-type catalog handed to the scheduler constructor
(the Go map from pool name to instance types). -/
abbrev Catalog := List (String × List InstanceType)

/-- Catalog lookup with the Go nil default. -/
def catalogFor (catalog : Catalog) (np : String) : List InstanceType :=
  ((catalog.find? (fun pr => pr.1 = np)).map Prod.snd).getD []

/-- Modelled from the spec: `NewReservationManager` initializes the
reservation counters from the full instance-type catalog (remaining units
of every reservation-backed offering). -/
def NewReservationManager (catalog : Catalog) : CountMap :=
  ((catalog.map Prod.snd).flatten.filter (·.reservedOffering)).map
    (fun it => (it.itName, it.reservedUnits))

/-- Modelled from the spec: `getDaemonOverhead` precomputes the resource
footprint the daemon-set pods consume on every node of a template. -/
def getDaemonOverhead (daemonSetPods : List Pod) : ResourceList :=
  daemonSetPods.foldl (fun acc dp => addResourceLists acc dp.requests) []

/-- `NewAltScheduler` (source lines 66-109): filter out node pools whose
requirements leave no compatible instance type (keeping the input pool
order), seed the remaining-resources ledger from the pool limits, and build
the scheduler state with empty claim and existing-node lists. -/
def NewAltScheduler (nodePools : List NodePool) (topology : CountMap)
    (catalog : Catalog) (daemonSetPods : List Pod)
    (mode : ReservedOfferingMode) : AltScheduler :=
  let templates := nodePools.filterMap (fun np =>
    let opts := filterInstanceTypesByRequirements (catalogFor catalog np.npName) np.requirements
    if opts.isEmpty then none
    else some { nodePoolName := np.npName, weight := np.weight,
                instanceTypeOptions := opts })
  { nodeClaimTemplates := templates,
    remainingResources := nodePools.map (fun np => (np.npName, np.limits)),
    daemonOverhead := templates.map
      (fun t => (t.nodePoolName, getDaemonOverhead daemonSetPods)),
    reservations := NewReservationManager catalog,
    reservedOfferingMode := mode,
    topology := topology,
    newNodeClaims := [],
    existingNodes := [] }

/-! ## The provisioner layer -/

/-- The data `ComputeSchedulingDecision` needs beyond its input: what the
scheduler constructor would read (pools, catalog, daemon pods, options). -/
structure ProvisionerEnv where
  nodePools : List NodePool
  catalog : Catalog
  daemonSetPods : List Pod
  mode : ReservedOfferingMode
  topologySeed : CountMap
deriving Repr, DecidableEq

/-- Modelled from the spec: `Provisioner.NewScheduler`, whose body is not
under `src/`, fails with `ErrNodePoolsNotFound` exactly when zero pools are
eligible (none pass initial compatibility filtering against the catalog),
and otherwise yields the engine. -/
def Provisioner.NewScheduler (env : ProvisionerEnv) : Except Unit AltScheduler :=
  let s := NewAltScheduler env.nodePools env.topologySeed env.catalog
    env.daemonSetPods env.mode
  if s.nodeClaimTemplates.isEmpty then .error () else .ok s

/-- `SchedulingInput` (source lines 226-238): the cluster snapshot, the
pending pods, and the pods displaced from deleting nodes. -/
structure SchedulingInput where
  Nodes : List ExistingNode
  PendingPods : List Pod
  DeletingNodePods : List Pod
deriving Repr, DecidableEq

/-- `SchedulingDecision` (source lines 240-254).  The `Error` field exists
on the Go struct but `ComputeSchedulingDecision` never sets it. -/
structure SchedulingDecision where
  Results : Results
  NoNodePoolsFound : Bool
  AllPods : List Pod
  Error : Option CtxError
deriving Repr, DecidableEq

/-- Modelled from the spec: `Results.TruncateInstanceTypes` caps the
exposed instance-type-option list of each claim at the given maximum,
keeping the lowest-cost options per the `FinalizeScheduling` order. -/
def Results.TruncateInstanceTypes (r : Results) (maxCount : Nat) : Results :=
  { r with NewNodeClaims := r.NewNodeClaims.map (fun nc =>
      { nc with instanceTypeOptions := nc.instanceTypeOptions.take maxCount }) }

/-- The protective cap on exposed instance types (`MaxInstanceTypes` in the
upstream scheduling package, not under `src/`). -/
def MaxInstanceTypes : Nat := 60

/-- `Provisioner.ComputeSchedulingDecision` (source lines 265-312): combine
pending and deleting-node pods; return an empty decision when there is
nothing to schedule; short-circuit to a `NoNodePoolsFound` decision when
the scheduler constructor reports no eligible pools; otherwise run `Solve`
under the caller timeout and tolerate only `DeadlineExceeded` (any other
context error is returned as a failure with no decision); finally truncate
the instance types of the results.  Returns the optional decision and the
error, mirroring the Go pair. -/
def ComputeSchedulingDecision (env : ProvisionerEnv) (parentCancelAt : Option Nat)
    (timeoutAt : Option Nat) (input : SchedulingInput) :
    Option SchedulingDecision × Option CtxError :=
  let pods := input.PendingPods ++ input.DeletingNodePods
  if pods.isEmpty then
    (some { Results := ⟨[], [], []⟩, NoNodePoolsFound := false, AllPods := pods,
            Error := none }, none)
  else
    match Provisioner.NewScheduler env with
    | .error _ =>
        (some { Results := ⟨[], [], []⟩, NoNodePoolsFound := true, AllPods := pods,
                Error := none }, none)
    | .ok s =>
        let c : Ctx := { cancelAt := parentCancelAt, deadlineAt := timeoutAt }
        let out := AltScheduler.Solve c s pods
        match out.2 with
        | some e =>
            if e = .deadlineExceeded then
              (some { Results := out.1.TruncateInstanceTypes MaxInstanceTypes,
                      NoNodePoolsFound := false, AllPods := pods, Error := none }, none)
            else (none, some e)
        | none =>
            (some { Results := out.1.TruncateInstanceTypes MaxInstanceTypes,
                    NoNodePoolsFound := false, AllPods := pods, Error := none }, none)

/-! ## Predicates used by the statements -/

/-- The context that never trips (no cancellation, no deadline). -/
def noTrip : Ctx := { cancelAt := none, deadlineAt := none }

/-- The first iteration at which the context reports an error, if any. -/
def Ctx.tripIdx (c : Ctx) : Option Nat :=
  match c.cancelAt, c.deadlineAt with
  | none, none => none
  | some a, none => some a
  | none, some b => some b
  | some a, some b => some (min a b)

/-- Is the workload (identified by uid) assigned to some claim of the list? -/
def claimsContain (claims : List NodeClaim) (p : Pod) : Bool :=
  claims.any (fun nc => nc.pods.any (fun q => q.uid == p.uid))

/-- Is the workload assigned to some existing node of the list? -/
def existingContain (nodes : List ExistingNode) (p : Pod) : Bool :=
  nodes.any (fun n => n.pods.any (fun q => q.uid == p.uid))

/-- Is the workload recorded in the pod-error list? -/
def errorsContain (errs : List (Pod × List TemplateErr)) (p : Pod) : Bool :=
  errs.any (fun pr => pr.1.uid == p.uid)

/-- In how many of the three outcome categories (new claim, existing node,
pod errors) does the workload appear? -/
def placementCount (r : Results) (p : Pod) : Nat :=
  (if claimsContain r.NewNodeClaims p then 1 else 0) +
    (if existingContain r.ExistingNodes p then 1 else 0) +
    (if errorsContain r.PodErrors p then 1 else 0)

/-- Every entry of the ledger is non-negative on every dimension. -/
def ledgerNonneg (m : LedgerMap) : Prop :=
  ∀ pr ∈ m, ∀ kv ∈ pr.2, 0 ≤ kv.2

instance (m : LedgerMap) : Decidable (ledgerNonneg m) := by
  unfold ledgerNonneg
  infer_instance

/-! ## Concrete fixtures for witnesses and counterexamples -/

/-- A small on-demand instance type with 2 cpu. -/
def itSmall : InstanceType :=
  { itName := "small", labels := [("arch", "amd64")], capacity := [("cpu", 2)],
    price := 1, reservedOffering := false, reservedUnits := 0 }

/-- A large on-demand instance type with 8 cpu. -/
def itBig : InstanceType :=
  { itName := "big", labels := [("arch", "amd64")], capacity := [("cpu", 8)],
    price := 4, reservedOffering := false, reservedUnits := 0 }

/-- A tiny instance type with 1 cpu. -/
def itTiny : InstanceType :=
  { itName := "tiny", labels := [], capacity := [("cpu", 1)],
    price := 1, reservedOffering := false, reservedUnits := 0 }

/-- A reservation-backed instance type with 8 cpu and no remaining units
in the catalog. -/
def itReserved : InstanceType :=
  { itName := "resv", labels := [], capacity := [("cpu", 8)],
    price := 2, reservedOffering := true, reservedUnits := 0 }

/-- A pod requesting 1 cpu. -/
def podA : Pod := { uid := 1, requests := [("cpu", 1)] }

/-- A second pod requesting 1 cpu. -/
def podB : Pod := { uid := 2, requests := [("cpu", 1)] }

/-- A pod requesting 4 cpu. -/
def podBig : Pod := { uid := 7, requests := [("cpu", 4)] }

/-- A pool compatible with the amd64 instance types. -/
def poolDefault : NodePool :=
  { npName := "default", weight := 10, limits := [("cpu", 100)],
    requirements := [("arch", ["amd64"])] }

/-- An environment with one eligible pool offering both amd64 instance
types. -/
def envOK : ProvisionerEnv :=
  { nodePools := [poolDefault], catalog := [("default", [itSmall, itBig])],
    daemonSetPods := [], mode := .disabled, topologySeed := [] }

/-- The environment with an empty catalog: requirement filtering leaves
zero eligible pools. -/
def envNoPools : ProvisionerEnv :=
  { envOK with catalog := [] }

/-- The scheduler built by `envOK`. -/
def schedOK : AltScheduler :=
  NewAltScheduler envOK.nodePools envOK.topologySeed envOK.catalog
    envOK.daemonSetPods envOK.mode

/-- A scheduler whose construction filtered out every template. -/
def schedEmpty : AltScheduler :=
  NewAltScheduler [poolDefault] [] [] [] .disabled

/-- A template whose only instance type is too small for `podBig`. -/
def tIncompat : NodeClaimTemplate :=
  { nodePoolName := "p1", weight := 20, instanceTypeOptions := [itTiny] }

/-- A template whose only instance type is reservation-backed. -/
def tReservedT : NodeClaimTemplate :=
  { nodePoolName := "p2", weight := 10, instanceTypeOptions := [itReserved] }

/-- Strict-mode scheduler where the first template is incompatible with
`podBig` and the second has only an exhausted reserved offering. -/
def schedStrict : AltScheduler :=
  { nodeClaimTemplates := [tIncompat, tReservedT],
    remainingResources := [("p1", [("cpu", 100)]), ("p2", [("cpu", 100)])],
    daemonOverhead := [],
    reservations := [("resv", 0)],
    reservedOfferingMode := .strict,
    topology := [],
    newNodeClaims := [],
    existingNodes := [] }

/-- The template of the default pool with ample instance capacity. -/
def tDefault : NodeClaimTemplate :=
  { nodePoolName := "default", weight := 1, instanceTypeOptions := [itBig] }

/-- A fresh one-template scheduler with ample capacity. -/
def schedOne : AltScheduler :=
  { nodeClaimTemplates := [tDefault],
    remainingResources := [("default", [("cpu", 100)])],
    daemonOverhead := [],
    reservations := [],
    reservedOfferingMode := .disabled,
    topology := [],
    newNodeClaims := [],
    existingNodes := [] }

/-- `schedOne` after placing `podA`: it holds one in-flight claim that
still has room for another 1-cpu pod. -/
def schedInflight : AltScheduler := (AltScheduler.add schedOne podA).1

/-- The claim `AltScheduler.add schedOK podA` creates for `podA` (used as
a concrete witness value). -/
def claimA : NodeClaim :=
  { nodePoolName := "default", hostname := "default/0",
    instanceTypeOptions := [itSmall, itBig], pods := [podA], reservedITs := [] }

/-- The claim obtained by also adding `podB` to `claimA` under the
disabled reservation mode (used as a concrete witness value). -/
def claimB : NodeClaim :=
  { nodePoolName := "default", hostname := "default/0",
    instanceTypeOptions := [itSmall, itBig], pods := [podA, podB],
    reservedITs := [] }

/-- A template whose only instance type already exceeds the pool limit. -/
def tOverLimit : NodeClaimTemplate :=
  { nodePoolName := "pl", weight := 1,
    instanceTypeOptions := [{ itName := "c2", labels := [], capacity := [("cpu", 2)],
                              price := 1, reservedOffering := false, reservedUnits := 0 }] }

/-- A scheduler whose single pool has a remaining budget below the
cheapest instance type. -/
def schedExhausted : AltScheduler :=
  { nodeClaimTemplates := [tOverLimit],
    remainingResources := [("pl", [("cpu", 1)])],
    daemonOverhead := [],
    reservations := [],
    reservedOfferingMode := .disabled,
    topology := [],
    newNodeClaims := [],
    existingNodes := [] }

/-! ## Map lemmas -/

theorem lookupCount_bump (m : CountMap) (k : String) (d : Int) (k2 : String) :
    lookupCount (bump m k d) k2 = lookupCount m k2 + (if k2 = k then d else 0) := by
  induction m with
  | nil =>
      by_cases h : k2 = k
      · subst h; simp [bump, lookupCount]
      · have h2 : ¬ k = k2 := fun hh => h hh.symm
        simp [bump, lookupCount, h, h2]
  | cons kv rest ih =>
      by_cases h1 : kv.1 = k
      · by_cases h2 : kv.1 = k2
        · subst h2; simp [bump, lookupCount, h1]
        · have hk2 : ¬ k2 = k := by rw [← h1]; exact fun hh => h2 hh.symm
          have hk2b : ¬ k = k2 := by rw [← h1]; exact h2
          simp [bump, lookupCount, h1, h2, hk2, hk2b]
      · by_cases h2 : kv.1 = k2
        · subst h2; simp [bump, lookupCount, h1]
        · simp [bump, lookupCount, h1, h2, ih]

theorem lookupCount_bump_cancel (m : CountMap) (k : String) (k2 : String) :
    lookupCount (bump (bump m k 1) k (-1)) k2 = lookupCount m k2 := by
  rw [lookupCount_bump, lookupCount_bump]
  by_cases h : k2 = k <;> simp [h]

theorem lookupRL_upsertRL_self (m : LedgerMap) (k : String) (v : ResourceList) :
    lookupRL (upsertRL m k v) k = some v := by
  induction m with
  | nil => simp [upsertRL, lookupRL]
  | cons pr rest ih =>
      by_cases h : pr.1 = k
      · simp [upsertRL, lookupRL, h]
      · simp [upsertRL, lookupRL, h, ih]

theorem lookupRL_upsertRL_ne (m : LedgerMap) (k : String) (v : ResourceList)
    (k2 : String) (hne : k2 ≠ k) :
    lookupRL (upsertRL m k v) k2 = lookupRL m k2 := by
  have hne2 : ¬ k = k2 := fun hh => hne hh.symm
  induction m with
  | nil => simp [upsertRL, lookupRL, hne2]
  | cons pr rest ih =>
      by_cases h : pr.1 = k
      · have h2 : ¬ pr.1 = k2 := by rw [h]; exact hne2
        simp [upsertRL, lookupRL, h, h2, hne2]
      · by_cases h2 : pr.1 = k2
        · subst h2; simp [upsertRL, lookupRL, h]
        · simp [upsertRL, lookupRL, h, h2, ih]

theorem mem_upsertRL (m : LedgerMap) (k : String) (v : ResourceList)
    (pr : String × ResourceList) (h : pr ∈ upsertRL m k v) :
    pr ∈ m ∨ pr = (k, v) := by
  induction m with
  | nil => simp [upsertRL] at h; simp [h]
  | cons hd rest ih =>
      by_cases hh : hd.1 = k
      · simp only [upsertRL, if_pos hh, List.mem_cons] at h
        rcases h with h | h
        · exact Or.inr h
        · exact Or.inl (List.mem_cons_of_mem _ h)
      · simp only [upsertRL, if_neg hh, List.mem_cons] at h
        rcases h with h | h
        · exact Or.inl (by simp [h])
        · rcases ih h with h2 | h2
          · exact Or.inl (List.mem_cons_of_mem _ h2)
          · exact Or.inr h2

theorem lookupRL_mem (m : LedgerMap) (k : String) (v : ResourceList)
    (h : lookupRL m k = some v) : ∃ pr ∈ m, pr.2 = v := by
  induction m with
  | nil => simp [lookupRL] at h
  | cons hd rest ih =>
      by_cases hh : hd.1 = k
      · simp only [lookupRL, if_pos hh, Option.some.injEq] at h
        exact ⟨hd, List.mem_cons_self _ _, h⟩
      · simp only [lookupRL, if_neg hh] at h
        rcases ih h with ⟨pr, hmem, hv⟩
        exact ⟨pr, List.mem_cons_of_mem _ hmem, hv⟩

/-! ## Ledger arithmetic lemmas -/

theorem foldl_max_le (f : InstanceType → Int) (v : Int) (its : List InstanceType) :
    ∀ a : Int, a ≤ v → (∀ it ∈ its, f it ≤ v) →
      its.foldl (fun acc it => max acc (f it)) a ≤ v := by
  induction its with
  | nil => intro a ha _; simpa using ha
  | cons hd rest ih =>
      intro a ha hall
      simp only [List.foldl_cons]
      exact ih _ (max_le ha (hall hd (List.mem_cons_self _ _)))
        (fun it hit => hall it (List.mem_cons_of_mem _ hit))

theorem maxCapacity_le (its : List InstanceType) (k : String) (v : Int)
    (hv : 0 ≤ v) (hall : ∀ it ∈ its, getQuantity it.capacity k ≤ v) :
    maxCapacity its k ≤ v :=
  foldl_max_le _ v its 0 hv hall

theorem subtractMax_nonneg (remaining : ResourceList) (its : List InstanceType)
    (hrem : ∀ kv ∈ remaining, 0 ≤ kv.2)
    (hviable : ∀ it ∈ its, ∀ kv ∈ remaining, getQuantity it.capacity kv.1 ≤ kv.2) :
    ∀ kv ∈ subtractMax remaining its, 0 ≤ kv.2 := by
  intro kv hkv
  by_cases hempty : its.isEmpty
  · rw [subtractMax, if_pos hempty] at hkv
    exact hrem kv hkv
  · rw [subtractMax, if_neg hempty] at hkv
    rcases List.mem_map.mp hkv with ⟨kv0, hkv0, heq⟩
    have hcap : maxCapacity its kv0.1 ≤ kv0.2 :=
      maxCapacity_le its kv0.1 kv0.2 (hrem kv0 hkv0)
        (fun it hit => hviable it hit kv0 hkv0)
    rw [← heq]
    simp only
    omega

theorem mem_filterByRemainingResources {it : InstanceType} {its : List InstanceType}
    {remaining : ResourceList} (h : it ∈ filterByRemainingResources its remaining) :
    it ∈ its ∧ ∀ kv ∈ remaining, getQuantity it.capacity kv.1 ≤ kv.2 := by
  rw [filterByRemainingResources, List.mem_filter] at h
  refine ⟨h.1, ?_⟩
  intro kv hkv
  have := (List.all_eq_true.mp h.2) kv hkv
  simpa using this

/-! ## NodeClaim.Add lemmas -/

theorem NodeClaim.Add_ok {mode : ReservedOfferingMode} {res : CountMap}
    {ov : ResourceList} {nc : NodeClaim} {p : Pod} {pr : NodeClaim × CountMap}
    (h : NodeClaim.Add mode res ov nc p = .ok pr) :
    pr.1.nodePoolName = nc.nodePoolName ∧ pr.1.hostname = nc.hostname ∧
      pr.1.pods = nc.pods ++ [p] ∧
      (∀ it ∈ pr.1.instanceTypeOptions, it ∈ nc.instanceTypeOptions) := by
  rw [NodeClaim.Add] at h
  split at h
  · exact absurd h (by simp)
  · cases mode with
    | strict =>
        simp only at h
        split at h
        · exact absurd h (by simp)
        · simp only [Except.ok.injEq] at h
          subst h
          refine ⟨rfl, rfl, rfl, ?_⟩
          intro it hit
          simp only [NodeClaim.commit] at hit
          exact List.mem_of_mem_filter (List.mem_of_mem_filter hit)
    | bestEffort =>
        simp only at h
        split at h
        · split at h
          · exact absurd h (by simp)
          · simp only [Except.ok.injEq] at h
            subst h
            refine ⟨rfl, rfl, rfl, ?_⟩
            intro it hit
            simp only [NodeClaim.commit] at hit
            exact List.mem_of_mem_filter (List.mem_of_mem_filter hit)
        · simp only [Except.ok.injEq] at h
          subst h
          refine ⟨rfl, rfl, rfl, ?_⟩
          intro it hit
          simp only [NodeClaim.commit] at hit
          exact List.mem_of_mem_filter (List.mem_of_mem_filter hit)
    | disabled =>
        simp only [Except.ok.injEq] at h
        subst h
        refine ⟨rfl, rfl, rfl, ?_⟩
        intro it hit
        simp only [NodeClaim.commit] at hit
        exact List.mem_of_mem_filter hit

/-! ## addCreate and addStep lemmas -/

theorem addCreate_not_placed {s : AltScheduler} {p : Pod} {t : NodeClaimTemplate}
    {its : List InstanceType} {s2 : AltScheduler} {o : StepOut}
    (h : addCreate s p t its = (s2, o)) (ho : o ≠ .placed) :
    s2.nodeClaimTemplates = s.nodeClaimTemplates ∧
      s2.existingNodes = s.existingNodes ∧
      s2.daemonOverhead = s.daemonOverhead ∧
      s2.reservedOfferingMode = s.reservedOfferingMode ∧
      s2.newNodeClaims = s.newNodeClaims ∧
      s2.remainingResources = s.remainingResources ∧
      s2.reservations = s.reservations ∧
      (∀ d, lookupCount s2.topology d = lookupCount s.topology d) := by
  simp only [addCreate] at h
  split at h
  case h_1 e0 heq =>
    split at h <;>
    · simp only [Prod.mk.injEq] at h
      obtain ⟨hs, _⟩ := h
      subst hs
      refine ⟨rfl, rfl, rfl, rfl, rfl, rfl, ?_, ?_⟩
      · simp [NodeClaim.Destroy, NewNodeClaim, releaseAll]
      · intro d
        simp only [NodeClaim.Destroy, NewNodeClaim]
        exact lookupCount_bump_cancel _ _ _
  case h_2 pr heq =>
    simp only [Prod.mk.injEq] at h
    exact absurd h.2 (fun hh => ho hh.symm)

theorem addCreate_placed {s : AltScheduler} {p : Pod} {t : NodeClaimTemplate}
    {its : List InstanceType} {s2 : AltScheduler}
    (h : addCreate s p t its = (s2, .placed)) :
    ∃ nc : NodeClaim,
      s2.nodeClaimTemplates = s.nodeClaimTemplates ∧
      s2.existingNodes = s.existingNodes ∧
      s2.daemonOverhead = s.daemonOverhead ∧
      s2.reservedOfferingMode = s.reservedOfferingMode ∧
      s2.newNodeClaims = s.newNodeClaims ++ [nc] ∧
      s2.remainingResources = upsertRL s.remainingResources t.nodePoolName
        (subtractMax (lookupRLD s.remainingResources t.nodePoolName)
          nc.instanceTypeOptions) ∧
      nc.pods = [p] ∧ nc.nodePoolName = t.nodePoolName ∧
      (∀ it ∈ nc.instanceTypeOptions, it ∈ its) := by
  simp only [addCreate] at h
  split at h
  case h_1 e0 heq =>
    split at h <;> simp only [Prod.mk.injEq] at h <;> exact absurd h.2 (by simp)
  case h_2 pr heq =>
    simp only [Prod.mk.injEq] at h
    obtain ⟨hs, _⟩ := h
    subst hs
    obtain ⟨hpool, _, hpods, hsub⟩ := NodeClaim.Add_ok heq
    refine ⟨pr.1, rfl, rfl, rfl, rfl, rfl, rfl, ?_, ?_, ?_⟩
    · rw [hpods]; simp [NewNodeClaim]
    · rw [hpool]; simp [NewNodeClaim]
    · intro it hit
      have := hsub it hit
      simpa [NewNodeClaim] using this

theorem addStep_skip {s : AltScheduler} {p : Pod} {t : NodeClaimTemplate}
    {s2 : AltScheduler} {e : TemplateErr} (h : addStep s p t = (s2, .skip e)) :
    s2.nodeClaimTemplates = s.nodeClaimTemplates ∧
      s2.existingNodes = s.existingNodes ∧
      s2.daemonOverhead = s.daemonOverhead ∧
      s2.reservedOfferingMode = s.reservedOfferingMode ∧
      s2.newNodeClaims = s.newNodeClaims ∧
      s2.remainingResources = s.remainingResources ∧
      s2.reservations = s.reservations ∧
      (∀ d, lookupCount s2.topology d = lookupCount s.topology d) ∧
      e.isReservedEntry = false := by
  have hkind : e.isReservedEntry = false := by
    rw [addStep] at h
    split at h
    · split at h
      · simp only [Prod.mk.injEq, StepOut.skip.injEq] at h
        rw [← h.2]; rfl
      · simp only [addCreate] at h
        split at h
        · split at h
          · simp at h
          · simp only [Prod.mk.injEq, StepOut.skip.injEq] at h
            rw [← h.2]; rfl
        · simp at h
    · simp only [addCreate] at h
      split at h
      · split at h
        · simp at h
        · simp only [Prod.mk.injEq, StepOut.skip.injEq] at h
          rw [← h.2]; rfl
      · simp at h
  rw [addStep] at h
  split at h
  · split at h
    · simp only [Prod.mk.injEq] at h
      obtain ⟨hs, _⟩ := h
      subst hs
      exact ⟨rfl, rfl, rfl, rfl, rfl, rfl, rfl, fun d => rfl, hkind⟩
    · obtain ⟨h1, h2, h3, h4, h5, h6, h7, h8⟩ := addCreate_not_placed h (by simp)
      exact ⟨h1, h2, h3, h4, h5, h6, h7, h8, hkind⟩
  · obtain ⟨h1, h2, h3, h4, h5, h6, h7, h8⟩ := addCreate_not_placed h (by simp)
    exact ⟨h1, h2, h3, h4, h5, h6, h7, h8, hkind⟩

theorem addStep_halt {s : AltScheduler} {p : Pod} {t : NodeClaimTemplate}
    {s2 : AltScheduler} {e : TemplateErr} (h : addStep s p t = (s2, .halt e)) :
    s2.nodeClaimTemplates = s.nodeClaimTemplates ∧
      s2.existingNodes = s.existingNodes ∧
      s2.daemonOverhead = s.daemonOverhead ∧
      s2.reservedOfferingMode = s.reservedOfferingMode ∧
      s2.newNodeClaims = s.newNodeClaims ∧
      s2.remainingResources = s.remainingResources ∧
      s2.reservations = s.reservations ∧
      (∀ d, lookupCount s2.topology d = lookupCount s.topology d) ∧
      e.isReservedEntry = true := by
  have hkind : e.isReservedEntry = true := by
    rw [addStep] at h
    split at h
    · split at h
      · simp at h
      · simp only [addCreate] at h
        split at h
        · split at h
          · simp only [Prod.mk.injEq, StepOut.halt.injEq] at h
            rw [← h.2]; rfl
          · simp at h
        · simp at h
    · simp only [addCreate] at h
      split at h
      · split at h
        · simp only [Prod.mk.injEq, StepOut.halt.injEq] at h
          rw [← h.2]; rfl
        · simp at h
      · simp at h
  rw [addStep] at h
  split at h
  · split at h
    · simp at h
    · obtain ⟨h1, h2, h3, h4, h5, h6, h7, h8⟩ := addCreate_not_placed h (by simp)
      exact ⟨h1, h2, h3, h4, h5, h6, h7, h8, hkind⟩
  · obtain ⟨h1, h2, h3, h4, h5, h6, h7, h8⟩ := addCreate_not_placed h (by simp)
    exact ⟨h1, h2, h3, h4, h5, h6, h7, h8, hkind⟩

theorem addStep_placed {s : AltScheduler} {p : Pod} {t : NodeClaimTemplate}
    {s2 : AltScheduler} (h : addStep s p t = (s2, .placed)) :
    ∃ nc : NodeClaim,
      s2.nodeClaimTemplates = s.nodeClaimTemplates ∧
      s2.existingNodes = s.existingNodes ∧
      s2.daemonOverhead = s.daemonOverhead ∧
      s2.reservedOfferingMode = s.reservedOfferingMode ∧
      s2.newNodeClaims = s.newNodeClaims ++ [nc] ∧
      s2.remainingResources = upsertRL s.remainingResources t.nodePoolName
        (subtractMax (lookupRLD s.remainingResources t.nodePoolName)
          nc.instanceTypeOptions) ∧
      nc.pods = [p] ∧ nc.nodePoolName = t.nodePoolName ∧
      (∀ remaining, lookupRL s.remainingResources t.nodePoolName = some remaining →
        ∀ it ∈ nc.instanceTypeOptions,
          it ∈ filterByRemainingResources t.instanceTypeOptions remaining) := by
  rw [addStep] at h
  split at h
  case h_1 remaining heq =>
    split at h
    · simp at h
    · obtain ⟨nc, h1, h2, h3, h4, h5, h6, h7, h8, h9⟩ := addCreate_placed h
      refine ⟨nc, h1, h2, h3, h4, h5, h6, h7, h8, ?_⟩
      intro r hr it hit
      rw [heq, Option.some.injEq] at hr
      subst hr
      exact h9 it hit
  case h_2 heq =>
    obtain ⟨nc, h1, h2, h3, h4, h5, h6, h7, h8, _⟩ := addCreate_placed h
    refine ⟨nc, h1, h2, h3, h4, h5, h6, h7, h8, ?_⟩
    intro r hr
    rw [heq] at hr
    exact absurd hr (by simp)

/-! ## addGo lemmas -/

theorem addGo_none {p : Pod} {ts : List NodeClaimTemplate} :
    ∀ {s : AltScheduler} {errs : List TemplateErr} {tried : List Attempt}
      {sF : AltScheduler} {att : List Attempt},
    AltScheduler.addGo p ts s errs tried = ((sF, none), att) →
    (errs = [] ∧ ts = [] ∧ sF = s) ∨
      (∃ t ∈ ts, ∃ nc : NodeClaim,
        sF.newNodeClaims = s.newNodeClaims ++ [nc] ∧
        sF.remainingResources = upsertRL s.remainingResources t.nodePoolName
          (subtractMax (lookupRLD s.remainingResources t.nodePoolName)
            nc.instanceTypeOptions) ∧
        nc.pods = [p] ∧ nc.nodePoolName = t.nodePoolName ∧
        sF.nodeClaimTemplates = s.nodeClaimTemplates ∧
        sF.existingNodes = s.existingNodes) := by
  induction ts with
  | nil =>
      intro s errs tried sF att h
      simp only [AltScheduler.addGo] at h
      by_cases he : errs.isEmpty
      · rw [if_pos he] at h
        simp only [Prod.mk.injEq] at h
        exact Or.inl ⟨List.isEmpty_iff.mp he, rfl, h.1.1.symm⟩
      · rw [if_neg he] at h
        simp at h
  | cons t rest ih =>
      intro s errs tried sF att h
      simp only [AltScheduler.addGo] at h
      rcases hstep : addStep s p t with ⟨s2, o⟩
      rw [hstep] at h
      cases o with
      | skip e =>
          simp only at h
          rcases ih h with ⟨habs, _, _⟩ | ⟨t2, ht2, nc, h1, h2, h3, h4, h5, h6⟩
          · exact absurd habs (by simp)
          · obtain ⟨e1, e2, e3, e4, e5, e6, e7, e8, e9⟩ := addStep_skip hstep
            refine Or.inr ⟨t2, List.mem_cons_of_mem _ ht2, nc, ?_, ?_, h3, h4, ?_, ?_⟩
            · rw [h1, e5]
            · rw [h2, e6]
            · rw [h5, e1]
            · rw [h6, e2]
      | halt e => simp at h
      | placed =>
          simp only [Prod.mk.injEq] at h
          obtain ⟨⟨hs, _⟩, _⟩ := h
          subst hs
          obtain ⟨nc, h1, h2, h3, h4, h5, h6, h7, h8, _⟩ := addStep_placed hstep
          exact Or.inr ⟨t, List.mem_cons_self _ _, nc, h5, h6, h7, h8, h1, h2⟩

theorem addGo_some {p : Pod} {ts : List NodeClaimTemplate} :
    ∀ {s : AltScheduler} {errs : List TemplateErr} {tried : List Attempt}
      {sF : AltScheduler} {errsF : List TemplateErr} {att : List Attempt},
    AltScheduler.addGo p ts s errs tried = ((sF, some errsF), att) →
    sF.newNodeClaims = s.newNodeClaims ∧
      sF.remainingResources = s.remainingResources ∧
      sF.reservations = s.reservations ∧
      sF.nodeClaimTemplates = s.nodeClaimTemplates ∧
      sF.existingNodes = s.existingNodes ∧
      sF.daemonOverhead = s.daemonOverhead ∧
      sF.reservedOfferingMode = s.reservedOfferingMode ∧
      (∀ d, lookupCount sF.topology d = lookupCount s.topology d) ∧
      errsF ≠ [] := by
  induction ts with
  | nil =>
      intro s errs tried sF errsF att h
      simp only [AltScheduler.addGo] at h
      by_cases he : errs.isEmpty
      · rw [if_pos he] at h; simp at h
      · rw [if_neg he] at h
        simp only [Prod.mk.injEq, Option.some.injEq] at h
        obtain ⟨⟨hs, herr⟩, _⟩ := h
        subst hs
        refine ⟨rfl, rfl, rfl, rfl, rfl, rfl, rfl, fun d => rfl, ?_⟩
        rw [← herr]
        exact fun hh => he (by simp [hh])
  | cons t rest ih =>
      intro s errs tried sF errsF att h
      simp only [AltScheduler.addGo] at h
      rcases hstep : addStep s p t with ⟨s2, o⟩
      rw [hstep] at h
      cases o with
      | skip e =>
          simp only at h
          obtain ⟨g1, g2, g3, g4, g5, g6, g7, g8, g9⟩ := ih h
          obtain ⟨e1, e2, e3, e4, e5, e6, e7, e8, _⟩ := addStep_skip hstep
          exact ⟨g1.trans e5, g2.trans e6, g3.trans e7, g4.trans e1, g5.trans e2,
            g6.trans e3, g7.trans e4, fun d => (g8 d).trans (e8 d), g9⟩
      | halt e =>
          simp only [Prod.mk.injEq, Option.some.injEq] at h
          obtain ⟨⟨hs, herr⟩, _⟩ := h
          subst hs
          obtain ⟨e1, e2, e3, e4, e5, e6, e7, e8, _⟩ := addStep_halt hstep
          exact ⟨e5, e6, e7, e1, e2, e3, e4, e8, by rw [← herr]; simp⟩
      | placed => simp at h

theorem addGo_reserved_last {p : Pod} {ts : List NodeClaimTemplate} :
    ∀ {s : AltScheduler} {errs : List TemplateErr} {tried : List Attempt}
      {sF : AltScheduler} {errsF : List TemplateErr} {att : List Attempt},
    AltScheduler.addGo p ts s errs tried = ((sF, some errsF), att) →
    (∀ e2 ∈ errs, e2.isReservedEntry = false) →
    ∀ e2 ∈ errsF.dropLast, e2.isReservedEntry = false := by
  induction ts with
  | nil =>
      intro s errs tried sF errsF att h hro
      simp only [AltScheduler.addGo] at h
      by_cases he : errs.isEmpty
      · rw [if_pos he] at h; simp at h
      · rw [if_neg he] at h
        simp only [Prod.mk.injEq, Option.some.injEq] at h
        obtain ⟨⟨_, herr⟩, _⟩ := h
        subst herr
        exact fun e2 he2 => hro e2 (List.dropLast_subset _ he2)
  | cons t rest ih =>
      intro s errs tried sF errsF att h hro
      simp only [AltScheduler.addGo] at h
      rcases hstep : addStep s p t with ⟨s2, o⟩
      rw [hstep] at h
      cases o with
      | skip e =>
          simp only at h
          obtain ⟨_, _, _, _, _, _, _, _, hkind⟩ := addStep_skip hstep
          refine ih h ?_
          intro e2 he2
          rcases List.mem_append.mp he2 with h2 | h2
          · exact hro e2 h2
          · rw [List.mem_singleton.mp h2]; exact hkind
      | halt e =>
          simp only [Prod.mk.injEq, Option.some.injEq] at h
          obtain ⟨⟨_, herr⟩, _⟩ := h
          subst herr
          intro e2 he2
          rw [List.dropLast_concat] at he2
          exact hro e2 he2
      | placed => simp at h

theorem addGo_attempts {p : Pod} {ts : List NodeClaimTemplate} :
    ∀ {s : AltScheduler} {errs : List TemplateErr} {tried : List Attempt},
    ∃ n, (AltScheduler.addGo p ts s errs tried).2 =
      tried ++ (ts.take n).map (fun t => Attempt.fromTemplate t.nodePoolName) := by
  induction ts with
  | nil =>
      intro s errs tried
      exact ⟨0, by simp [AltScheduler.addGo]⟩
  | cons t rest ih =>
      intro s errs tried
      simp only [AltScheduler.addGo]
      rcases hstep : addStep s p t with ⟨s2, o⟩
      cases o with
      | skip e =>
          simp only
          obtain ⟨n, hn⟩ := @ih s2 (errs ++ [e]) (tried ++ [Attempt.fromTemplate t.nodePoolName])
          refine ⟨n + 1, ?_⟩
          rw [hn]
          simp [List.take_cons]
      | halt e =>
          exact ⟨1, by simp [List.take_cons]⟩
      | placed =>
          exact ⟨1, by simp [List.take_cons]⟩

theorem addGo_att_errs_len {p : Pod} {ts : List NodeClaimTemplate} :
    ∀ {s : AltScheduler} {errs : List TemplateErr} {tried : List Attempt}
      {sF : AltScheduler} {errsF : List TemplateErr} {att : List Attempt},
    AltScheduler.addGo p ts s errs tried = ((sF, some errsF), att) →
    att.length + errs.length = errsF.length + tried.length := by
  induction ts with
  | nil =>
      intro s errs tried sF errsF att h
      simp only [AltScheduler.addGo] at h
      by_cases he : errs.isEmpty
      · rw [if_pos he] at h; simp at h
      · rw [if_neg he] at h
        simp only [Prod.mk.injEq, Option.some.injEq] at h
        obtain ⟨⟨_, herr⟩, hatt⟩ := h
        rw [← herr, ← hatt]
        omega
  | cons t rest ih =>
      intro s errs tried sF errsF att h
      simp only [AltScheduler.addGo] at h
      rcases hstep : addStep s p t with ⟨s2, o⟩
      rw [hstep] at h
      cases o with
      | skip e =>
          simp only at h
          have := ih h
          simp only [List.length_append, List.length_singleton] at this
          omega
      | halt e =>
          simp only [Prod.mk.injEq, Option.some.injEq] at h
          obtain ⟨⟨_, herr⟩, hatt⟩ := h
          rw [← herr, ← hatt]
          simp only [List.length_append, List.length_singleton]
          omega
      | placed => simp at h

theorem addGo_ledger {p : Pod} {ts : List NodeClaimTemplate} :
    ∀ {s : AltScheduler} {errs : List TemplateErr} {tried : List Attempt},
    ledgerNonneg s.remainingResources →
    ledgerNonneg ((AltScheduler.addGo p ts s errs tried).1.1.remainingResources) := by
  induction ts with
  | nil =>
      intro s errs tried hn
      simp only [AltScheduler.addGo]
      exact hn
  | cons t rest ih =>
      intro s errs tried hn
      simp only [AltScheduler.addGo]
      rcases hstep : addStep s p t with ⟨s2, o⟩
      cases o with
      | skip e =>
          simp only
          obtain ⟨_, _, _, _, _, e6, _, _, _⟩ := addStep_skip hstep
          exact ih (by rw [e6]; exact hn)
      | halt e =>
          simp only
          obtain ⟨_, _, _, _, _, e6, _, _, _⟩ := addStep_halt hstep
          rw [e6]; exact hn
      | placed =>
          simp only
          obtain ⟨nc, _, _, _, _, _, h6, _, _, h9⟩ := addStep_placed hstep
          rw [h6]
          intro pr hpr
          rcases mem_upsertRL _ _ _ _ hpr with hmem | heqpr
          · exact hn pr hmem
          · subst heqpr
            intro kv hkv
            rcases hlook : lookupRL s.remainingResources t.nodePoolName with _ | remaining
            · rw [lookupRLD, hlook] at hkv
              simp only [Option.getD_none] at hkv
              exact absurd hkv (by
                by_cases hempty : nc.instanceTypeOptions.isEmpty <;>
                  simp [subtractMax, hempty])
            · rw [lookupRLD, hlook, Option.getD_some] at hkv
              have hremn : ∀ kv2 ∈ remaining, 0 ≤ kv2.2 := by
                rcases lookupRL_mem _ _ _ hlook with ⟨pr2, hpr2, hv2⟩
                intro kv2 hkv2
                exact hn pr2 hpr2 kv2 (by rw [hv2]; exact hkv2)
              have hviable : ∀ it ∈ nc.instanceTypeOptions, ∀ kv2 ∈ remaining,
                  getQuantity it.capacity kv2.1 ≤ kv2.2 := by
                intro it hit kv2 hkv2
                exact (mem_filterByRemainingResources (h9 remaining hlook it hit)).2 kv2 hkv2
              exact subtractMax_nonneg remaining nc.instanceTypeOptions hremn hviable kv hkv

theorem addGo_excluded {p : Pod} {ts : List NodeClaimTemplate} {P : String}
    {r : ResourceList} {topts : List InstanceType} :
    ∀ {s : AltScheduler} {errs : List TemplateErr} {tried : List Attempt},
    lookupRL s.remainingResources P = some r →
    filterByRemainingResources topts r = [] →
    (∀ t2 ∈ ts, t2.nodePoolName = P → t2.instanceTypeOptions = topts) →
    lookupRL ((AltScheduler.addGo p ts s errs tried).1.1.remainingResources) P = some r ∧
      ((AltScheduler.addGo p ts s errs tried).1.1.newNodeClaims = s.newNodeClaims ∨
        ∃ nc : NodeClaim,
          (AltScheduler.addGo p ts s errs tried).1.1.newNodeClaims =
            s.newNodeClaims ++ [nc] ∧ nc.nodePoolName ≠ P) := by
  induction ts with
  | nil =>
      intro s errs tried hlook hfil hts
      simp only [AltScheduler.addGo]
      exact ⟨hlook, Or.inl trivial⟩
  | cons t rest ih =>
      intro s errs tried hlook hfil hts
      simp only [AltScheduler.addGo]
      by_cases hp : t.nodePoolName = P
      · have hopts : t.instanceTypeOptions = topts :=
          hts t (List.mem_cons_self _ _) hp
        have hstep : addStep s p t = (s, .skip (.limitsExceeded t.nodePoolName)) := by
          rw [addStep, hp, hlook, hopts]
          simp [hfil]
        rw [hstep]
        simp only
        exact ih hlook hfil (fun t2 ht2 => hts t2 (List.mem_cons_of_mem _ ht2))
      · rcases hstep : addStep s p t with ⟨s2, o⟩
        cases o with
        | skip e =>
            simp only
            obtain ⟨_, _, _, _, e5, e6, _, _, _⟩ := addStep_skip hstep
            have hres := @ih s2 (errs ++ [e])
              (tried ++ [Attempt.fromTemplate t.nodePoolName])
              (by rw [e6]; exact hlook) hfil
              (fun t2 ht2 => hts t2 (List.mem_cons_of_mem _ ht2))
            refine ⟨hres.1, ?_⟩
            rcases hres.2 with hsame | ⟨nc, hcl, hnc⟩
            · exact Or.inl (hsame.trans e5)
            · exact Or.inr ⟨nc, by rw [hcl, e5], hnc⟩
        | halt e =>
            simp only
            obtain ⟨_, _, _, _, e5, e6, _, _, _⟩ := addStep_halt hstep
            exact ⟨by rw [e6]; exact hlook, Or.inl e5⟩
        | placed =>
            simp only
            obtain ⟨nc, _, _, _, _, h5, h6, _, h8, _⟩ := addStep_placed hstep
            refine ⟨?_, Or.inr ⟨nc, h5, by rw [h8]; exact hp⟩⟩
            rw [h6]
            rw [lookupRL_upsertRL_ne _ _ _ _ (fun hh => hp hh.symm)]
            exact hlook

/-! ## AltScheduler.add lemmas -/

theorem add_success {s : AltScheduler} {p : Pod} {sF : AltScheduler}
    (h : AltScheduler.add s p = (sF, none)) :
    (s.nodeClaimTemplates = [] ∧ sF = s) ∨
      (∃ t ∈ s.nodeClaimTemplates, ∃ nc : NodeClaim,
        sF.newNodeClaims = s.newNodeClaims ++ [nc] ∧
        sF.remainingResources = upsertRL s.remainingResources t.nodePoolName
          (subtractMax (lookupRLD s.remainingResources t.nodePoolName)
            nc.instanceTypeOptions) ∧
        nc.pods = [p] ∧ nc.nodePoolName = t.nodePoolName ∧
        sF.nodeClaimTemplates = s.nodeClaimTemplates ∧
        sF.existingNodes = s.existingNodes) := by
  rw [AltScheduler.add] at h
  rcases hgo : AltScheduler.addGo p s.nodeClaimTemplates s [] [] with ⟨⟨s1, o1⟩, att⟩
  rw [hgo] at h
  simp only [Prod.mk.injEq] at h
  obtain ⟨hs, ho⟩ := h
  subst hs
  subst ho
  rcases addGo_none hgo with ⟨_, hts, hsf⟩ | hr
  · exact Or.inl ⟨hts, hsf⟩
  · exact Or.inr hr

theorem add_failure {s : AltScheduler} {p : Pod} {sF : AltScheduler}
    {errsF : List TemplateErr} (h : AltScheduler.add s p = (sF, some errsF)) :
    sF.newNodeClaims = s.newNodeClaims ∧
      sF.remainingResources = s.remainingResources ∧
      sF.reservations = s.reservations ∧
      sF.nodeClaimTemplates = s.nodeClaimTemplates ∧
      sF.existingNodes = s.existingNodes ∧
      sF.daemonOverhead = s.daemonOverhead ∧
      sF.reservedOfferingMode = s.reservedOfferingMode ∧
      (∀ d, lookupCount sF.topology d = lookupCount s.topology d) ∧
      errsF ≠ [] := by
  rw [AltScheduler.add] at h
  rcases hgo : AltScheduler.addGo p s.nodeClaimTemplates s [] [] with ⟨⟨s1, o1⟩, att⟩
  rw [hgo] at h
  simp only [Prod.mk.injEq] at h
  obtain ⟨hs, ho⟩ := h
  subst hs
  subst ho
  exact addGo_some hgo

theorem add_templates {s : AltScheduler} {p : Pod} :
    (AltScheduler.add s p).1.nodeClaimTemplates = s.nodeClaimTemplates := by
  rcases h : AltScheduler.add s p with ⟨sF, o⟩
  cases o with
  | none =>
      rcases add_success h with ⟨_, hsf⟩ | ⟨t, _, nc, _, _, _, _, h5, _⟩
      · rw [hsf]
      · exact h5
  | some errsF => exact (add_failure h).2.2.2.1

/-! ## Bool predicate lemmas -/

theorem claimsContain_append (a b : List NodeClaim) (p : Pod) :
    claimsContain (a ++ b) p = (claimsContain a p || claimsContain b p) := by
  simp [claimsContain, List.any_append]

theorem errorsContain_append (a b : List (Pod × List TemplateErr)) (p : Pod) :
    errorsContain (a ++ b) p = (errorsContain a p || errorsContain b p) := by
  simp [errorsContain, List.any_append]

theorem claimsContain_singleton_pods {nc : NodeClaim} {q p : Pod}
    (h : nc.pods = [q]) : claimsContain [nc] p = (q.uid == p.uid) := by
  simp [claimsContain, h]

theorem claimsContain_of_mem_uids {claims : List NodeClaim} {p : Pod}
    (h : claimsContain claims p = true) :
    ∃ nc ∈ claims, ∃ q ∈ nc.pods, q.uid = p.uid := by
  simp only [claimsContain, List.any_eq_true, beq_iff_eq] at h
  exact h

theorem errorsContain_of_mem_uids {errs : List (Pod × List TemplateErr)} {p : Pod}
    (h : errorsContain errs p = true) :
    ∃ pr ∈ errs, pr.1.uid = p.uid := by
  simp only [errorsContain, List.any_eq_true, beq_iff_eq] at h
  exact h

/-! ## Solve loop lemmas -/

theorem solveLoop_shape (c : Ctx) (queue : List Pod) :
    ∀ (i : Nat) (s : AltScheduler) (acc : List (Pod × List TemplateErr)),
    ∃ added addedErrs,
      (AltScheduler.solveLoop c queue i s acc).1.newNodeClaims =
        s.newNodeClaims ++ added ∧
      (AltScheduler.solveLoop c queue i s acc).2.1 = acc ++ addedErrs ∧
      (AltScheduler.solveLoop c queue i s acc).1.existingNodes = s.existingNodes ∧
      (AltScheduler.solveLoop c queue i s acc).1.nodeClaimTemplates =
        s.nodeClaimTemplates ∧
      (∀ nc ∈ added, ∃ q ∈ queue, nc.pods = [q]) ∧
      (∀ pr ∈ addedErrs, pr.1 ∈ queue) := by
  induction queue with
  | nil =>
      intro i s acc
      refine ⟨[], [], ?_⟩
      rw [AltScheduler.solveLoop]
      by_cases htr : (c.errAt i).isSome
      · rw [if_pos htr]; simp
      · rw [if_neg htr]; simp
  | cons p0 rest ih =>
      intro i s acc
      rw [AltScheduler.solveLoop]
      by_cases htr : (c.errAt i).isSome
      · rw [if_pos htr]
        exact ⟨[], [], by simp, by simp, rfl, rfl, by simp, by simp⟩
      · rw [if_neg htr]
        rcases hadd : AltScheduler.add s p0 with ⟨s2, o⟩
        cases o with
        | none =>
            obtain ⟨added, addedErrs, g1, g2, g3, g4, g5, g6⟩ := ih (i + 1) s2 acc
            rcases add_success hadd with ⟨_, hsf⟩ | ⟨t, _, nc, h1, _, h3, _, h5, h6⟩
            · subst hsf
              exact ⟨added, addedErrs, g1, g2, g3, g4,
                fun nc2 hnc2 => (g5 nc2 hnc2).imp
                  (fun q hq => ⟨List.mem_cons_of_mem _ hq.1, hq.2⟩),
                fun pr hpr => List.mem_cons_of_mem _ (g6 pr hpr)⟩
            · refine ⟨nc :: added, addedErrs, ?_, g2, g3.trans h6, g4.trans h5, ?_, ?_⟩
              · rw [g1, h1]
                simp
              · intro nc2 hnc2
                rcases List.mem_cons.mp hnc2 with hh | hh
                · exact ⟨p0, List.mem_cons_self _ _, by rw [hh]; exact h3⟩
                · exact (g5 nc2 hh).imp (fun q hq => ⟨List.mem_cons_of_mem _ hq.1, hq.2⟩)
              · intro pr hpr
                exact List.mem_cons_of_mem _ (g6 pr hpr)
        | some errsF =>
            obtain ⟨added, addedErrs, g1, g2, g3, g4, g5, g6⟩ :=
              ih (i + 1) s2 (acc ++ [(p0, errsF)])
            obtain ⟨hc, _, _, ht, he, _⟩ := add_failure hadd
            refine ⟨added, (p0, errsF) :: addedErrs, ?_, ?_, g3.trans he, g4.trans ht, ?_, ?_⟩
            · rw [g1, hc]
            · rw [g2]
              simp
            · intro nc2 hnc2
              exact (g5 nc2 hnc2).imp (fun q hq => ⟨List.mem_cons_of_mem _ hq.1, hq.2⟩)
            · intro pr hpr
              rcases List.mem_cons.mp hpr with hh | hh
              · rw [hh]; exact List.mem_cons_self _ _
              · exact List.mem_cons_of_mem _ (g6 pr hh)

theorem noTrip_errAt (i : Nat) : noTrip.errAt i = none := rfl

theorem solveLoop_exclusive (queue : List Pod) :
    ∀ (i : Nat) (s : AltScheduler) (acc : List (Pod × List TemplateErr)),
    s.nodeClaimTemplates ≠ [] →
    (queue.map Pod.uid).Nodup →
    ∀ p ∈ queue,
      claimsContain s.newNodeClaims p = false →
      errorsContain acc p = false →
      ((claimsContain (AltScheduler.solveLoop noTrip queue i s acc).1.newNodeClaims p = true ∧
        errorsContain (AltScheduler.solveLoop noTrip queue i s acc).2.1 p = false) ∨
       (claimsContain (AltScheduler.solveLoop noTrip queue i s acc).1.newNodeClaims p = false ∧
        errorsContain (AltScheduler.solveLoop noTrip queue i s acc).2.1 p = true)) := by
  induction queue with
  | nil => intro i s acc _ _ p hp; simp at hp
  | cons p0 rest ih =>
      intro i s acc hts hnd p hp hc he
      simp only [List.map_cons, List.nodup_cons] at hnd
      obtain ⟨hpu, hnd2⟩ := hnd
      rw [AltScheduler.solveLoop]
      rw [if_neg (by rw [noTrip_errAt]; simp)]
      rcases hadd : AltScheduler.add s p0 with ⟨s2, o⟩
      cases o with
      | none =>
          rcases add_success hadd with ⟨habs, _⟩ | ⟨t, _, nc, h1, _, h3, _, h5, _⟩
          · exact absurd habs hts
          · obtain ⟨added, addedErrs, g1, g2, _, _, g5, g6⟩ :=
              solveLoop_shape noTrip rest (i + 1) s2 acc
            rcases List.mem_cons.mp hp with hpeq | hpr
            · subst hpeq
              refine Or.inl ⟨?_, ?_⟩
              · rw [g1, h1, claimsContain_append, claimsContain_append,
                  claimsContain_singleton_pods h3]
                simp
              · rw [g2, errorsContain_append, he]
                cases hE : errorsContain addedErrs p
                · simp
                · rcases errorsContain_of_mem_uids hE with ⟨pr, hpr2, hpru⟩
                  exact absurd (hpru ▸ List.mem_map_of_mem Pod.uid (g6 pr hpr2)) hpu
            · have hcuid : (p0.uid == p.uid) = false := by
                have : p0.uid ≠ p.uid := by
                  intro hh
                  exact hpu (hh ▸ List.mem_map_of_mem Pod.uid hpr)
                simp [this]
              refine ih (i + 1) s2 acc (by rw [h5]; exact hts) hnd2 p hpr ?_ he
              rw [h1, claimsContain_append, claimsContain_singleton_pods h3, hc, hcuid]
              rfl
      | some errsF =>
          obtain ⟨hcl, _, _, ht2, _, _⟩ := add_failure hadd
          obtain ⟨added, addedErrs, g1, g2, _, _, g5, g6⟩ :=
            solveLoop_shape noTrip rest (i + 1) s2 (acc ++ [(p0, errsF)])
          rcases List.mem_cons.mp hp with hpeq | hpr
          · subst hpeq
            refine Or.inr ⟨?_, ?_⟩
            · rw [g1, hcl]
              rw [claimsContain_append, hc]
              cases hC : claimsContain added p
              · rfl
              · rcases claimsContain_of_mem_uids hC with ⟨nc2, hnc2, q, hq, hqu⟩
                rcases g5 nc2 hnc2 with ⟨q2, hq2, hq2p⟩
                rw [hq2p] at hq
                rw [List.mem_singleton.mp hq] at hqu
                exact absurd (hqu ▸ List.mem_map_of_mem Pod.uid hq2) hpu
            · rw [g2, errorsContain_append, errorsContain_append]
              have : errorsContain [(p, errsF)] p = true := by
                simp [errorsContain]
              rw [this]
              simp
          · have hcuid : p0.uid ≠ p.uid := by
              intro hh
              exact hpu (hh ▸ List.mem_map_of_mem Pod.uid hpr)
            refine ih (i + 1) s2 (acc ++ [(p0, errsF)])
              (by rw [ht2]; exact hts) hnd2 p hpr (by rw [hcl]; exact hc) ?_
            rw [errorsContain_append, he]
            have : errorsContain [(p0, errsF)] p = false := by
              simp [errorsContain, hcuid]
            rw [this]
            rfl

theorem errAt_isSome_iff {c : Ctx} {t : Nat} (h : c.tripIdx = some t) (i : Nat) :
    (c.errAt i).isSome = true ↔ t ≤ i := by
  rcases c with ⟨ca, da⟩
  rcases ca with _ | a <;> rcases da with _ | b <;>
    simp only [Ctx.tripIdx, Option.some.injEq] at h
  · exact absurd h (by simp)
  · rw [← h]
    by_cases hb : b ≤ i <;> simp [Ctx.errAt, tripped, hb]
  · rw [← h]
    by_cases hb : a ≤ i <;> simp [Ctx.errAt, tripped, hb]
  · rw [← h]
    by_cases ha : a ≤ i <;> by_cases hb : b ≤ i <;>
      simp [Ctx.errAt, tripped, ha, hb]

theorem solveLoop_trip {c : Ctx} {t : Nat} (h : c.tripIdx = some t)
    (queue : List Pod) :
    ∀ (i : Nat) (s : AltScheduler) (acc : List (Pod × List TemplateErr)), i ≤ t →
    (AltScheduler.solveLoop c queue i s acc).1 =
      (AltScheduler.solveLoop noTrip (queue.take (t - i)) i s acc).1 ∧
    (AltScheduler.solveLoop c queue i s acc).2.1 =
      (AltScheduler.solveLoop noTrip (queue.take (t - i)) i s acc).2.1 ∧
    (AltScheduler.solveLoop c queue i s acc).2.2.1 = queue.drop (t - i) ∧
    (AltScheduler.solveLoop c queue i s acc).2.2.2 =
      (AltScheduler.solveLoop noTrip (queue.take (t - i)) i s acc).2.2.2 := by
  induction queue with
  | nil =>
      intro i s acc hi
      simp only [List.take_nil, List.drop_nil]
      rw [AltScheduler.solveLoop, AltScheduler.solveLoop]
      by_cases htr : (c.errAt i).isSome
      · rw [if_pos htr]
        rw [if_neg (by rw [noTrip_errAt]; simp)]
        simp
      · rw [if_neg htr]
        rw [if_neg (by rw [noTrip_errAt]; simp)]
        simp
  | cons p0 rest ih =>
      intro i s acc hi
      by_cases hit : i = t
      · subst hit
        have htr : (c.errAt i).isSome = true := (errAt_isSome_iff h i).mpr le_rfl
        rw [AltScheduler.solveLoop, if_pos htr]
        simp only [Nat.sub_self, List.take_zero, List.drop_zero]
        rw [AltScheduler.solveLoop]
        rw [if_neg (by rw [noTrip_errAt]; simp)]
        simp
      · have hlt : i < t := lt_of_le_of_ne hi hit
        have htr : (c.errAt i).isSome = false := by
          rw [Bool.eq_false_iff]
          intro hh
          exact absurd ((errAt_isSome_iff h i).mp hh) (by omega)
        have htk : t - i = (t - (i + 1)) + 1 := by omega
        rw [htk, List.take_succ_cons, List.drop_succ_cons]
        rw [AltScheduler.solveLoop, if_neg (by rw [htr]; simp)]
        rw [AltScheduler.solveLoop]
        rw [if_neg (by rw [noTrip_errAt]; simp)]
        rcases hadd : AltScheduler.add s p0 with ⟨s2, o⟩
        cases o with
        | none => exact ih (i + 1) s2 acc (by omega)
        | some errsF => exact ih (i + 1) s2 (acc ++ [(p0, errsF)]) (by omega)

/-! ## Ledger preservation along the solve loop -/

theorem add_ledger {s : AltScheduler} {p : Pod}
    (hn : ledgerNonneg s.remainingResources) :
    ledgerNonneg (AltScheduler.add s p).1.remainingResources :=
  addGo_ledger hn

theorem solveStates_ledger (c : Ctx) (queue : List Pod) :
    ∀ (i : Nat) (s : AltScheduler), ledgerNonneg s.remainingResources →
    ∀ st ∈ AltScheduler.solveStates c queue i s,
      ledgerNonneg st.remainingResources := by
  induction queue with
  | nil =>
      intro i s hn st hst
      rw [AltScheduler.solveStates] at hst
      by_cases htr : (c.errAt i).isSome
      · rw [if_pos htr] at hst
        rw [List.mem_singleton.mp hst]; exact hn
      · rw [if_neg htr] at hst
        rw [List.mem_singleton.mp hst]; exact hn
  | cons p0 rest ih =>
      intro i s hn st hst
      rw [AltScheduler.solveStates] at hst
      by_cases htr : (c.errAt i).isSome
      · rw [if_pos htr] at hst
        rw [List.mem_singleton.mp hst]; exact hn
      · rw [if_neg htr] at hst
        rcases List.mem_cons.mp hst with hh | hh
        · rw [hh]; exact hn
        · exact ih (i + 1) (AltScheduler.add s p0).1 (add_ledger hn) st hh

theorem solveLoop_ledger (c : Ctx) (queue : List Pod) :
    ∀ (i : Nat) (s : AltScheduler) (acc : List (Pod × List TemplateErr)),
    ledgerNonneg s.remainingResources →
    ledgerNonneg (AltScheduler.solveLoop c queue i s acc).1.remainingResources := by
  induction queue with
  | nil =>
      intro i s acc hn
      rw [AltScheduler.solveLoop]
      by_cases htr : (c.errAt i).isSome
      · rw [if_pos htr]; exact hn
      · rw [if_neg htr]; exact hn
  | cons p0 rest ih =>
      intro i s acc hn
      rw [AltScheduler.solveLoop]
      by_cases htr : (c.errAt i).isSome
      · rw [if_pos htr]; exact hn
      · rw [if_neg htr]
        rcases hadd : AltScheduler.add s p0 with ⟨s2, o⟩
        have hn2 : ledgerNonneg s2.remainingResources := by
          have := add_ledger (p := p0) hn
          rw [hadd] at this
          exact this
        cases o with
        | none => exact ih (i + 1) s2 acc hn2
        | some errsF => exact ih (i + 1) s2 (acc ++ [(p0, errsF)]) hn2

/-! ## Pool exclusion along the solve loop -/

theorem add_excluded {s : AltScheduler} {p : Pod} {P : String} {r : ResourceList}
    {topts : List InstanceType}
    (hlook : lookupRL s.remainingResources P = some r)
    (hfil : filterByRemainingResources topts r = [])
    (hts : ∀ t2 ∈ s.nodeClaimTemplates, t2.nodePoolName = P →
      t2.instanceTypeOptions = topts) :
    lookupRL (AltScheduler.add s p).1.remainingResources P = some r ∧
      ((AltScheduler.add s p).1.newNodeClaims = s.newNodeClaims ∨
        ∃ nc : NodeClaim, (AltScheduler.add s p).1.newNodeClaims =
          s.newNodeClaims ++ [nc] ∧ nc.nodePoolName ≠ P) :=
  addGo_excluded hlook hfil hts

theorem solveLoop_excluded (c : Ctx) (queue : List Pod) {P : String}
    {r : ResourceList} {topts : List InstanceType} :
    ∀ (i : Nat) (s : AltScheduler) (acc : List (Pod × List TemplateErr)),
    lookupRL s.remainingResources P = some r →
    filterByRemainingResources topts r = [] →
    (∀ t2 ∈ s.nodeClaimTemplates, t2.nodePoolName = P →
      t2.instanceTypeOptions = topts) →
    lookupRL (AltScheduler.solveLoop c queue i s acc).1.remainingResources P = some r ∧
      ∃ added, (AltScheduler.solveLoop c queue i s acc).1.newNodeClaims =
        s.newNodeClaims ++ added ∧ ∀ nc ∈ added, nc.nodePoolName ≠ P := by
  induction queue with
  | nil =>
      intro i s acc hlook hfil hts
      rw [AltScheduler.solveLoop]
      by_cases htr : (c.errAt i).isSome
      · rw [if_pos htr]; exact ⟨hlook, [], by simp, by simp⟩
      · rw [if_neg htr]; exact ⟨hlook, [], by simp, by simp⟩
  | cons p0 rest ih =>
      intro i s acc hlook hfil hts
      rw [AltScheduler.solveLoop]
      by_cases htr : (c.errAt i).isSome
      · rw [if_pos htr]; exact ⟨hlook, [], by simp, by simp⟩
      · rw [if_neg htr]
        rcases hadd : AltScheduler.add s p0 with ⟨s2, o⟩
        have hstep := add_excluded (p := p0) hlook hfil hts
        rw [hadd] at hstep
        have hts2 : ∀ t2 ∈ s2.nodeClaimTemplates, t2.nodePoolName = P →
            t2.instanceTypeOptions = topts := by
          have htmp : s2.nodeClaimTemplates = s.nodeClaimTemplates := by
            have := add_templates (s := s) (p := p0)
            rw [hadd] at this
            exact this
          rw [htmp]; exact hts
        cases o with
        | none =>
            obtain ⟨hl2, hcl2⟩ := hstep
            obtain ⟨hlF, added, haF, hnF⟩ := ih (i + 1) s2 acc hl2 hfil hts2
            refine ⟨hlF, ?_⟩
            rcases hcl2 with hsame | ⟨nc, hnc, hncP⟩
            · exact ⟨added, by rw [haF, hsame], hnF⟩
            · refine ⟨nc :: added, by rw [haF, hnc]; simp, ?_⟩
              intro nc2 hnc2
              rcases List.mem_cons.mp hnc2 with hh | hh
              · rw [hh]; exact hncP
              · exact hnF nc2 hh
        | some errsF =>
            obtain ⟨hl2, hcl2⟩ := hstep
            obtain ⟨hlF, added, haF, hnF⟩ := ih (i + 1) s2 (acc ++ [(p0, errsF)]) hl2 hfil hts2
            refine ⟨hlF, ?_⟩
            rcases hcl2 with hsame | ⟨nc, hnc, hncP⟩
            · exact ⟨added, by rw [haF, hsame], hnF⟩
            · refine ⟨nc :: added, by rw [haF, hnc]; simp, ?_⟩
              intro nc2 hnc2
              rcases List.mem_cons.mp hnc2 with hh | hh
              · rw [hh]; exact hncP
              · exact hnF nc2 hh

/-! ## Final helper lemmas for the claim theorems -/

theorem finalize_pods (nc : NodeClaim) :
    (NodeClaim.FinalizeScheduling nc).pods = nc.pods := rfl

theorem claimsContain_map_finalize (l : List NodeClaim) (p : Pod) :
    claimsContain (l.map NodeClaim.FinalizeScheduling) p = claimsContain l p := by
  simp only [claimsContain, List.any_map]
  rfl

/-! ## Claim C1 -/

/-- C1 counterexample: the claim "after Solve returns without cancellation,
every input workload appears in exactly one of NewNodeClaims, ExistingNodes
or PodErrors" is false on the code.  When construction filtered out every
template (`schedEmpty`), the template loop body never runs and the nil Go
multi-error makes `add` report success, so `Solve` leaves the workload in
none of the three categories: its placement count is 0, not 1. -/
theorem C1_counterexample :
    schedEmpty.nodeClaimTemplates = [] ∧ podA ∈ [podA] ∧
      placementCount (AltScheduler.Solve noTrip schedEmpty [podA]).1 podA = 0 := by
  decide

/-- C1 (amended): for a scheduler that starts a solve with at least one
NodeClaimTemplate, fresh claim and existing-node lists, and distinct
workload identifiers, every workload of the input appears in exactly one of
NewNodeClaims, ExistingNodes, PodErrors after `Solve` runs without
cancellation (the spec data model already promises unique identifiers; the
non-empty-template hypothesis is what the counterexample forces). -/
theorem C1_exclusivity_amended (s : AltScheduler) (pods : List Pod)
    (hts : s.nodeClaimTemplates ≠ [])
    (hclaims : s.newNodeClaims = [])
    (hex : s.existingNodes = [])
    (hnd : (pods.map Pod.uid).Nodup) :
    ∀ p ∈ pods, placementCount (AltScheduler.Solve noTrip s pods).1 p = 1 := by
  intro p hp
  have hxor := solveLoop_exclusive pods 0 s [] hts hnd p hp
    (by rw [hclaims]; rfl) rfl
  obtain ⟨added, addedErrs, _, _, g3, _, _, _⟩ := solveLoop_shape noTrip pods 0 s []
  simp only [AltScheduler.Solve, placementCount]
  have hexF : existingContain
      (AltScheduler.solveLoop noTrip pods 0 s []).1.existingNodes p = false := by
    rw [g3, hex]
    rfl
  simp only [claimsContain_map_finalize, hexF]
  rcases hxor with ⟨hc1, he1⟩ | ⟨hc1, he1⟩ <;> simp [hc1, he1]

/-- C1 witness: the amended exclusivity theorem applied to the concrete
two-pod scenario on the one-pool scheduler. -/
theorem C1_exclusivity_amended_witness :
    (schedOK.nodeClaimTemplates ≠ [] ∧ schedOK.newNodeClaims = [] ∧
      schedOK.existingNodes = [] ∧ (([podA, podB]).map Pod.uid).Nodup ∧
      podA ∈ [podA, podB]) ∧
    placementCount (AltScheduler.Solve noTrip schedOK [podA, podB]).1 podA = 1 :=
  ⟨by decide,
   C1_exclusivity_amended schedOK [podA, podB] (by decide) (by decide) (by decide)
     (by decide) podA (by decide)⟩

/-! ## Claim C2 -/

/-- C2: when zero pools are eligible (initial compatibility filtering left
no template) and there is at least one pending workload,
`ComputeSchedulingDecision` short-circuits before the placement loop and
returns a decision with `NoNodePoolsFound = true`, zero new claims, no
per-workload errors and a nil overall error. -/
theorem C2_no_nodepools_shortcircuit (env : ProvisionerEnv) (pc ta : Option Nat)
    (input : SchedulingInput)
    (helig : (NewAltScheduler env.nodePools env.topologySeed env.catalog
      env.daemonSetPods env.mode).nodeClaimTemplates = [])
    (hpend : input.PendingPods ≠ []) :
    ComputeSchedulingDecision env pc ta input =
      (some { Results := ⟨[], [], []⟩, NoNodePoolsFound := true,
              AllPods := input.PendingPods ++ input.DeletingNodePods,
              Error := none }, none) := by
  have hne : (input.PendingPods ++ input.DeletingNodePods).isEmpty = false := by
    rcases hpp : input.PendingPods with _ | ⟨q, qs⟩
    · exact absurd hpp hpend
    · rfl
  have hsched : Provisioner.NewScheduler env = .error () := by
    rw [Provisioner.NewScheduler]
    rw [if_pos (by rw [helig]; rfl)]
  rw [ComputeSchedulingDecision]
  rw [if_neg (by rw [hne]; simp)]
  rw [hsched]

/-- C2 witness: the eligibility-filtered environment with an empty catalog
and one pending pod. -/
theorem C2_no_nodepools_shortcircuit_witness :
    ((NewAltScheduler envNoPools.nodePools envNoPools.topologySeed envNoPools.catalog
        envNoPools.daemonSetPods envNoPools.mode).nodeClaimTemplates = [] ∧
      (SchedulingInput.mk [] [podA] []).PendingPods ≠ []) ∧
    ComputeSchedulingDecision envNoPools none none ⟨[], [podA], []⟩ =
      (some { Results := ⟨[], [], []⟩, NoNodePoolsFound := true,
              AllPods := [podA], Error := none }, none) :=
  ⟨by decide,
   C2_no_nodepools_shortcircuit envNoPools none none ⟨[], [podA], []⟩
     (by decide) (by decide)⟩

/-! ## Claim C3 -/

/-- C3: when the cancellation or deadline signal trips at iteration `t`
mid-loop, `Solve` exits immediately with exactly the state computed for the
first `t` pods: the already-created claims are all retained (finalization
only reorders their options, never their assigned workloads), the recorded
pod errors are exactly those of the processed prefix, and the workloads
still in the queue at cancellation are absent from PodErrors. -/
theorem C3_cancellation_partial_results (c : Ctx) (s : AltScheduler)
    (pods : List Pod) (t : Nat)
    (htrip : c.tripIdx = some t) (_hmid : t < pods.length) :
    (AltScheduler.Solve c s pods).1.NewNodeClaims =
      (AltScheduler.solveLoop noTrip (pods.take t) 0 s []).1.newNodeClaims.map
        NodeClaim.FinalizeScheduling ∧
    (AltScheduler.Solve c s pods).1.PodErrors =
      (AltScheduler.solveLoop noTrip (pods.take t) 0 s []).2.1 ∧
    (∀ nc ∈ (AltScheduler.solveLoop noTrip (pods.take t) 0 s []).1.newNodeClaims,
      (NodeClaim.FinalizeScheduling nc).pods = nc.pods) ∧
    ((pods.map Pod.uid).Nodup →
      ∀ p ∈ pods.drop t,
        errorsContain (AltScheduler.Solve c s pods).1.PodErrors p = false) := by
  obtain ⟨e1, e2, e3, e4⟩ := solveLoop_trip htrip pods 0 s [] (Nat.zero_le t)
  rw [Nat.sub_zero] at e1 e2 e3 e4
  refine ⟨?_, ?_, fun nc _ => finalize_pods nc, ?_⟩
  · simp only [AltScheduler.Solve]
    rw [e1]
  · simp only [AltScheduler.Solve]
    rw [e2]
  · intro hnd p hp
    simp only [AltScheduler.Solve]
    rw [e2]
    obtain ⟨added, addedErrs, _, g2, _, _, _, g6⟩ :=
      solveLoop_shape noTrip (pods.take t) 0 s []
    rw [g2, List.nil_append]
    cases hE : errorsContain addedErrs p
    · rfl
    · rcases errorsContain_of_mem_uids hE with ⟨pr, hpr, hpru⟩
      have hmem1 : pr.1 ∈ pods.take t := g6 pr hpr
      have hdisj : (List.map Pod.uid (pods.take t)).Disjoint
          (List.map Pod.uid (pods.drop t)) := by
        have hsplit : pods = pods.take t ++ pods.drop t :=
          (List.take_append_drop t pods).symm
        rw [hsplit, List.map_append] at hnd
        exact (List.nodup_append.mp hnd).2.2
      exact absurd (hpru ▸ List.mem_map_of_mem Pod.uid hmem1)
        (fun hh => hdisj hh (List.mem_map_of_mem Pod.uid hp))

/-- C3 witness: a context whose cancellation trips at iteration 1 over a
two-pod queue on the one-pool scheduler. -/
theorem C3_cancellation_partial_results_witness :
    ((Ctx.mk (some 1) none).tripIdx = some 1 ∧ 1 < ([podA, podB]).length) ∧
    ((AltScheduler.Solve ⟨some 1, none⟩ schedOK [podA, podB]).1.NewNodeClaims =
      (AltScheduler.solveLoop noTrip (([podA, podB]).take 1) 0 schedOK
        []).1.newNodeClaims.map NodeClaim.FinalizeScheduling ∧
     (AltScheduler.Solve ⟨some 1, none⟩ schedOK [podA, podB]).1.PodErrors =
      (AltScheduler.solveLoop noTrip (([podA, podB]).take 1) 0 schedOK []).2.1 ∧
     (∀ nc ∈ (AltScheduler.solveLoop noTrip (([podA, podB]).take 1) 0 schedOK
        []).1.newNodeClaims,
       (NodeClaim.FinalizeScheduling nc).pods = nc.pods) ∧
     ((([podA, podB]).map Pod.uid).Nodup →
      ∀ p ∈ ([podA, podB]).drop 1,
        errorsContain (AltScheduler.Solve ⟨some 1, none⟩ schedOK
          [podA, podB]).1.PodErrors p = false)) :=
  ⟨by decide,
   C3_cancellation_partial_results ⟨some 1, none⟩ schedOK [podA, podB] 1
     (by decide) (by decide)⟩

/-! ## Claim C4 -/

/-- C4 counterexample: the claim that the error recorded for a workload hit
by a reserved-offering failure "surfaces only the reserved-offering error,
not other per-template incompatibilities" is false on the code.  With the
strict fallback policy, a higher-weight template that is plainly
incompatible and a lower-weight template with an exhausted reserved
offering, the recorded multi-error retains both entries: the earlier
incompatibility and the reserved-offering error. -/
theorem C4_counterexample :
    (AltScheduler.add schedStrict podBig).2 =
      some [TemplateErr.incompatible "p1" [] AddError.incompatibleWithInstanceTypes,
            TemplateErr.reservedOffering "p2" AddError.reservedOfferingUnavailable] ∧
    AltScheduler.addAttempts schedStrict podBig =
      [Attempt.fromTemplate "p1", Attempt.fromTemplate "p2"] := by
  decide

/-- C4 (amended): a reserved-offering error does stop the template loop:
whenever `add` fails, any reserved-offering entry of the recorded
multi-error is its final entry (no lower-weight template is tried after
it), and exactly one template was attempted per recorded entry — but the
entries accumulated from higher-weight templates tried before the
reserved-offering failure remain in the error. -/
theorem C4_reserved_shortcircuit_amended (s : AltScheduler) (p : Pod)
    (errs : List TemplateErr)
    (h : (AltScheduler.add s p).2 = some errs) :
    (∀ e ∈ errs.dropLast, e.isReservedEntry = false) ∧
    (AltScheduler.addAttempts s p).length = errs.length := by
  rcases hgo : AltScheduler.addGo p s.nodeClaimTemplates s [] [] with ⟨⟨s1, o1⟩, att⟩
  have h2 : o1 = some errs := by
    rw [AltScheduler.add, hgo] at h
    exact h
  subst h2
  constructor
  · exact addGo_reserved_last hgo (by simp)
  · have := addGo_att_errs_len hgo
    rw [AltScheduler.addAttempts, hgo]
    simp only [List.length_nil] at this ⊢
    omega

/-- C4 witness: the amended statement applied to the strict-mode
two-template scenario of the counterexample. -/
theorem C4_reserved_shortcircuit_amended_witness :
    ((AltScheduler.add schedStrict podBig).2 =
      some [TemplateErr.incompatible "p1" [] AddError.incompatibleWithInstanceTypes,
            TemplateErr.reservedOffering "p2" AddError.reservedOfferingUnavailable]) ∧
    ((∀ e ∈ ([TemplateErr.incompatible "p1" [] AddError.incompatibleWithInstanceTypes,
              TemplateErr.reservedOffering "p2"
                AddError.reservedOfferingUnavailable]).dropLast,
        e.isReservedEntry = false) ∧
     (AltScheduler.addAttempts schedStrict podBig).length =
       ([TemplateErr.incompatible "p1" [] AddError.incompatibleWithInstanceTypes,
         TemplateErr.reservedOffering "p2"
           AddError.reservedOfferingUnavailable]).length) :=
  ⟨by decide,
   C4_reserved_shortcircuit_amended schedStrict podBig _ (by decide)⟩

/-! ## Claim C5 -/

/-- C5: whenever placing a workload creates a new NodeClaim, the ledger
entry of the pool of that claim is replaced by exactly `subtractMax` of its
previous value over the remaining instance-type options of the claim (the
worst-case footprint reservation), and every other pool entry is
untouched. -/
theorem C5_ledger_decrement (s : AltScheduler) (p : Pod) (sF : AltScheduler)
    (nc : NodeClaim)
    (h : AltScheduler.add s p = (sF, none))
    (hnew : sF.newNodeClaims = s.newNodeClaims ++ [nc]) :
    lookupRL sF.remainingResources nc.nodePoolName =
      some (subtractMax (lookupRLD s.remainingResources nc.nodePoolName)
        nc.instanceTypeOptions) ∧
    (∀ pool, pool ≠ nc.nodePoolName →
      lookupRL sF.remainingResources pool = lookupRL s.remainingResources pool) := by
  rcases add_success h with ⟨_, hsf⟩ | ⟨t, _, nc2, h1, h2, _, h4, _, _⟩
  · subst hsf
    exact absurd hnew (by simp)
  · have hnc : nc2 = nc := by
      rw [h1] at hnew
      have := List.append_cancel_left hnew
      simpa using this
    subst hnc
    rw [h2, ← h4]
    exact ⟨lookupRL_upsertRL_self _ _ _,
      fun pool hpool => lookupRL_upsertRL_ne _ _ _ _ hpool⟩

/-- C5 witness: the concrete claim created for the first pod on the
one-pool scheduler; its ledger entry shrinks by the worst-case footprint of
its two options. -/
theorem C5_ledger_decrement_witness :
    (AltScheduler.add schedOK podA = ((AltScheduler.add schedOK podA).1, none) ∧
     (AltScheduler.add schedOK podA).1.newNodeClaims =
       schedOK.newNodeClaims ++ [claimA]) ∧
    (lookupRL (AltScheduler.add schedOK podA).1.remainingResources
        claimA.nodePoolName =
      some (subtractMax (lookupRLD schedOK.remainingResources claimA.nodePoolName)
        claimA.instanceTypeOptions) ∧
     (∀ pool, pool ≠ claimA.nodePoolName →
       lookupRL (AltScheduler.add schedOK podA).1.remainingResources pool =
         lookupRL schedOK.remainingResources pool)) :=
  ⟨⟨by decide, by decide⟩,
   C5_ledger_decrement schedOK podA (AltScheduler.add schedOK podA).1 claimA
     (by decide) (by decide)⟩

/-! ## Claim C6 -/

/-- C6: the Remaining-Resources Ledger stays non-negative at every state of
the solve loop and after it (limit minus consumed is at least zero on every
dimension, given non-negative initial limits), and once the remaining
budget of a pool cannot satisfy even the cheapest compatible instance type
of its template (the remaining-resources filter empties the option set),
that pool creates no further claims for the remainder of the solve and its
ledger entry never changes again. -/
theorem C6_ledger_nonneg_and_exclusion (c : Ctx) (s : AltScheduler)
    (pods : List Pod) :
    (ledgerNonneg s.remainingResources →
      (∀ st ∈ AltScheduler.solveStates c pods 0 s,
        ledgerNonneg st.remainingResources) ∧
      ledgerNonneg (AltScheduler.solveLoop c pods 0 s []).1.remainingResources) ∧
    (∀ t ∈ s.nodeClaimTemplates, ∀ r : ResourceList,
      (s.nodeClaimTemplates.map NodeClaimTemplate.nodePoolName).Nodup →
      lookupRL s.remainingResources t.nodePoolName = some r →
      filterByRemainingResources t.instanceTypeOptions r = [] →
      lookupRL (AltScheduler.solveLoop c pods 0 s []).1.remainingResources
          t.nodePoolName = some r ∧
      ∃ added, (AltScheduler.solveLoop c pods 0 s []).1.newNodeClaims =
        s.newNodeClaims ++ added ∧
        ∀ nc ∈ added, nc.nodePoolName ≠ t.nodePoolName) := by
  constructor
  · intro hn
    exact ⟨solveStates_ledger c pods 0 s hn, solveLoop_ledger c pods 0 s [] hn⟩
  · intro t ht r hnd hlook hfil
    have hts : ∀ t2 ∈ s.nodeClaimTemplates, t2.nodePoolName = t.nodePoolName →
        t2.instanceTypeOptions = t.instanceTypeOptions := by
      intro t2 ht2 hp2
      have : t2 = t := List.inj_on_of_nodup_map hnd ht2 ht hp2
      rw [this]
    exact solveLoop_excluded c pods 0 s [] hlook hfil hts

/-- C6 witness: a pool whose one-cpu remaining budget cannot hold its
two-cpu cheapest instance type, solving two one-cpu pods. -/
theorem C6_ledger_nonneg_and_exclusion_witness :
    (ledgerNonneg schedExhausted.remainingResources ∧
      tOverLimit ∈ schedExhausted.nodeClaimTemplates ∧
      (schedExhausted.nodeClaimTemplates.map NodeClaimTemplate.nodePoolName).Nodup ∧
      lookupRL schedExhausted.remainingResources tOverLimit.nodePoolName =
        some [("cpu", 1)] ∧
      filterByRemainingResources tOverLimit.instanceTypeOptions [("cpu", 1)] = []) ∧
    ((∀ st ∈ AltScheduler.solveStates noTrip [podA, podB] 0 schedExhausted,
        ledgerNonneg st.remainingResources) ∧
      ledgerNonneg (AltScheduler.solveLoop noTrip [podA, podB] 0 schedExhausted
        []).1.remainingResources) ∧
    (lookupRL (AltScheduler.solveLoop noTrip [podA, podB] 0 schedExhausted
        []).1.remainingResources tOverLimit.nodePoolName = some [("cpu", 1)] ∧
      ∃ added, (AltScheduler.solveLoop noTrip [podA, podB] 0 schedExhausted
        []).1.newNodeClaims = schedExhausted.newNodeClaims ++ added ∧
        ∀ nc ∈ added, nc.nodePoolName ≠ tOverLimit.nodePoolName) :=
  ⟨by decide,
   (C6_ledger_nonneg_and_exclusion noTrip schedExhausted [podA, podB]).1 (by decide),
   (C6_ledger_nonneg_and_exclusion noTrip schedExhausted [podA, podB]).2
     tOverLimit (by decide) [("cpu", 1)] (by decide) (by decide) (by decide)⟩

/-! ## Claim C7 -/

/-- C7 counterexample: the claim that the engine first attempts the
already-created in-flight NodeClaims before instantiating a template is
false on the code.  `schedInflight` holds one in-flight claim with ample
room for the next one-cpu pod, yet the recorded placement attempts for that
pod consist of a single template attempt — no in-flight attempt occurs —
and a second claim is created. -/
theorem C7_counterexample :
    schedInflight.newNodeClaims.length = 1 ∧
    AltScheduler.addAttempts schedInflight podB = [Attempt.fromTemplate "default"] ∧
    (AltScheduler.addAttempts schedInflight podB).all
      (fun a => !a.isInflight) = true ∧
    (AltScheduler.add schedInflight podB).1.newNodeClaims.length = 2 := by
  decide

/-- C7 (amended): for every popped workload the engine goes directly to
the templates: the recorded attempts are exactly a prefix of the template
list in its stored order (so no in-flight claim is ever attempted), and the
template list order produced by the constructor is the input pool order
restricted to the eligible pools — not a weight-sorted order. -/
theorem C7_placement_order_amended :
    (∀ (s : AltScheduler) (p : Pod), ∃ n,
      AltScheduler.addAttempts s p =
        (s.nodeClaimTemplates.take n).map
          (fun t => Attempt.fromTemplate t.nodePoolName)) ∧
    (∀ (nodePools : List NodePool) (topo : CountMap) (catalog : Catalog)
        (daemons : List Pod) (mode : ReservedOfferingMode),
      (NewAltScheduler nodePools topo catalog daemons mode).nodeClaimTemplates.map
          NodeClaimTemplate.nodePoolName =
        (nodePools.filter (fun np => !(filterInstanceTypesByRequirements
          (catalogFor catalog np.npName) np.requirements).isEmpty)).map
            NodePool.npName) := by
  constructor
  · intro s p
    obtain ⟨n, hn⟩ := @addGo_attempts p s.nodeClaimTemplates s [] []
    exact ⟨n, by rw [AltScheduler.addAttempts, hn]; simp⟩
  · intro nodePools topo catalog daemons mode
    simp only [NewAltScheduler]
    induction nodePools with
    | nil => rfl
    | cons np rest ih =>
        by_cases hemp : (filterInstanceTypesByRequirements
            (catalogFor catalog np.npName) np.requirements).isEmpty
        · simp only [List.filterMap_cons, List.filter_cons]
          simpa [hemp] using ih
        · simp only [List.filterMap_cons, List.filter_cons]
          simpa [hemp] using ih

/-! ## Claim C8 -/

/-- C8 counterexample: the claim that `ComputeSchedulingDecision` does not
treat a deadline or context-cancellation error from `Solve` as a hard
failure is false for plain cancellation.  With the parent context canceled
from the start, `Solve` ends with the cancellation error, and the caller
discards the computed results and returns no decision together with the
error — only `DeadlineExceeded` is tolerated. -/
theorem C8_counterexample :
    (AltScheduler.Solve ⟨some 0, some 5⟩ schedOK [podA]).2 =
      some CtxError.canceled ∧
    ComputeSchedulingDecision envOK (some 0) (some 5) ⟨[], [podA], []⟩ =
      (none, some CtxError.canceled) := by
  decide

/-- C8 (amended): when `Solve` ends with the deadline-exceeded error
specifically, `ComputeSchedulingDecision` does not treat it as a hard
failure: it returns the already-computed results, truncated, with a nil
error.  A plain cancellation error is instead propagated as a failure. -/
theorem C8_deadline_tolerated_amended (env : ProvisionerEnv)
    (pc ta : Option Nat) (input : SchedulingInput) (s : AltScheduler)
    (hpods : (input.PendingPods ++ input.DeletingNodePods).isEmpty = false)
    (hsched : Provisioner.NewScheduler env = .ok s)
    (hdl : (AltScheduler.Solve ⟨pc, ta⟩ s
        (input.PendingPods ++ input.DeletingNodePods)).2 =
      some CtxError.deadlineExceeded) :
    ComputeSchedulingDecision env pc ta input =
      (some { Results := (AltScheduler.Solve ⟨pc, ta⟩ s
                (input.PendingPods ++ input.DeletingNodePods)).1.TruncateInstanceTypes
                MaxInstanceTypes,
              NoNodePoolsFound := false,
              AllPods := input.PendingPods ++ input.DeletingNodePods,
              Error := none }, none) := by
  rcases hsol : AltScheduler.Solve ⟨pc, ta⟩ s
      (input.PendingPods ++ input.DeletingNodePods) with ⟨res, err⟩
  rw [hsol] at hdl
  simp only at hdl
  subst hdl
  simp only [ComputeSchedulingDecision, hpods, hsched, hsol]
  simp

/-- C8 witness: the amended statement at a deadline that trips at
iteration zero on the one-pool environment. -/
theorem C8_deadline_tolerated_amended_witness :
    ((((SchedulingInput.mk [] [podA] []).PendingPods ++
        (SchedulingInput.mk [] [podA] []).DeletingNodePods).isEmpty = false) ∧
      Provisioner.NewScheduler envOK = .ok schedOK ∧
      (AltScheduler.Solve ⟨none, some 0⟩ schedOK [podA]).2 =
        some CtxError.deadlineExceeded) ∧
    ComputeSchedulingDecision envOK none (some 0) ⟨[], [podA], []⟩ =
      (some { Results := (AltScheduler.Solve ⟨none, some 0⟩ schedOK
                [podA]).1.TruncateInstanceTypes MaxInstanceTypes,
              NoNodePoolsFound := false,
              AllPods := [podA],
              Error := none }, none) :=
  ⟨⟨by decide, rfl, by decide⟩,
   C8_deadline_tolerated_amended envOK none (some 0) ⟨[], [podA], []⟩ schedOK
     (by decide) rfl (by decide)⟩

/-! ## Claim C9 -/

theorem lookupCount_foldl_bump (d : Int) (L : List String) :
    ∀ (m : CountMap) (k : String),
    lookupCount (L.foldl (fun acc n => bump acc n d) m) k =
      lookupCount m k + d * (L.count k) := by
  induction L with
  | nil => intro m k; simp
  | cons n rest ih =>
      intro m k
      simp only [List.foldl_cons]
      rw [ih, lookupCount_bump]
      by_cases h : k = n
      · subst h
        rw [if_pos rfl, List.count_cons_self]
        push_cast
        ring
      · rw [if_neg h, List.count_cons_of_ne h]
        ring

theorem release_reserve_cancel (m : CountMap) (L : List String) (k : String) :
    lookupCount (releaseAll (reserveAll m L) L) k = lookupCount m k := by
  rw [releaseAll, reserveAll, lookupCount_foldl_bump, lookupCount_foldl_bump]
  ring

/-- C9: `Add` either fully commits or fully no-ops.  First, whenever every
template fails to accept a workload (so `add` returns an error), the
engine state is unchanged: the claim list, the remaining-resources ledger
and the reservation counters are identical and every topology count is
restored by the `Destroy` applied to each tentative claim.  Second,
`Destroy` reverses the reservation bookkeeping of a committed claim: for a
fresh claim that `NodeClaim.Add` accepted, releasing the reserved units the
claim holds restores every reservation counter to its value before the
`Add`. -/
theorem C9_add_atomic :
    (∀ (s : AltScheduler) (p : Pod) (errs : List TemplateErr),
      (AltScheduler.add s p).2 = some errs →
      (AltScheduler.add s p).1.newNodeClaims = s.newNodeClaims ∧
      (AltScheduler.add s p).1.remainingResources = s.remainingResources ∧
      (AltScheduler.add s p).1.reservations = s.reservations ∧
      (∀ d, lookupCount (AltScheduler.add s p).1.topology d =
        lookupCount s.topology d)) ∧
    (∀ (mode : ReservedOfferingMode) (res : CountMap) (ov : ResourceList)
        (nc : NodeClaim) (p : Pod) (out : NodeClaim × CountMap),
      nc.reservedITs = [] →
      NodeClaim.Add mode res ov nc p = .ok out →
      ∀ n2, lookupCount (releaseAll out.2 out.1.reservedITs) n2 =
        lookupCount res n2) := by
  constructor
  · intro s p errs h
    rcases hadd : AltScheduler.add s p with ⟨sF, o⟩
    rw [hadd] at h
    simp only at h
    subst h
    obtain ⟨g1, g2, g3, _, _, _, _, g8, _⟩ := add_failure hadd
    exact ⟨g1, g2, g3, g8⟩
  · intro mode res ov nc p out hfr h n2
    rw [NodeClaim.Add] at h
    split at h
    · exact absurd h (by simp)
    · cases mode with
      | strict =>
          simp only at h
          split at h
          · exact absurd h (by simp)
          · simp only [Except.ok.injEq] at h
            subst h
            simp only [NodeClaim.commit, hfr, List.nil_append]
            exact release_reserve_cancel res _ n2
      | bestEffort =>
          simp only at h
          split at h
          · split at h
            · exact absurd h (by simp)
            · simp only [Except.ok.injEq] at h
              subst h
              simp only [NodeClaim.commit, hfr, List.nil_append]
              exact release_reserve_cancel res _ n2
          · simp only [Except.ok.injEq] at h
            subst h
            simp only [NodeClaim.commit, hfr, List.nil_append]
            exact release_reserve_cancel res _ n2
      | disabled =>
          simp only [Except.ok.injEq] at h
          subst h
          simp only [NodeClaim.commit, hfr, List.nil_append]
          exact release_reserve_cancel res _ n2

/-- C9 witness: the no-op part applied where every template of the
strict-mode scheduler rejects the workload, and the Destroy-reversal part
applied to a fresh claim accepted under the disabled mode. -/
theorem C9_add_atomic_witness :
    ((AltScheduler.add schedStrict podBig).2 =
        some [TemplateErr.incompatible "p1" []
                AddError.incompatibleWithInstanceTypes,
              TemplateErr.reservedOffering "p2"
                AddError.reservedOfferingUnavailable] ∧
      claimA.reservedITs = [] ∧
      NodeClaim.Add ReservedOfferingMode.disabled [("resv", 3)] [] claimA podB =
        .ok (claimB, [("resv", 3)])) ∧
    ((AltScheduler.add schedStrict podBig).1.newNodeClaims =
        schedStrict.newNodeClaims ∧
      (AltScheduler.add schedStrict podBig).1.remainingResources =
        schedStrict.remainingResources ∧
      (AltScheduler.add schedStrict podBig).1.reservations =
        schedStrict.reservations ∧
      (∀ d, lookupCount (AltScheduler.add schedStrict podBig).1.topology d =
        lookupCount schedStrict.topology d)) ∧
    (∀ n2, lookupCount (releaseAll (claimB, ([("resv", 3)] : CountMap)).2
        (claimB, ([("resv", 3)] : CountMap)).1.reservedITs) n2 =
      lookupCount [("resv", 3)] n2) :=
  ⟨⟨by decide, by decide, rfl⟩,
   C9_add_atomic.1 schedStrict podBig
     [TemplateErr.incompatible "p1" [] AddError.incompatibleWithInstanceTypes,
      TemplateErr.reservedOffering "p2" AddError.reservedOfferingUnavailable]
     (by decide),
   C9_add_atomic.2 ReservedOfferingMode.disabled [("resv", 3)] [] claimA podB
     (claimB, [("resv", 3)]) (by decide) rfl⟩

/-! ## Claim C10 -/

/-- C10: when both the pending-workload list and the displaced-workload
list are empty, `ComputeSchedulingDecision` returns the early empty
decision — empty results, `NoNodePoolsFound = false`, empty `AllPods`, nil
error — for every environment, which shows no scheduler is constructed and
the solve loop never runs (the result does not depend on any of the
scheduler-construction inputs). -/
theorem C10_empty_input_noop (env : ProvisionerEnv) (pc ta : Option Nat)
    (input : SchedulingInput)
    (hp : input.PendingPods = []) (hd : input.DeletingNodePods = []) :
    ComputeSchedulingDecision env pc ta input =
      (some { Results := ⟨[], [], []⟩, NoNodePoolsFound := false,
              AllPods := [], Error := none }, none) := by
  rw [ComputeSchedulingDecision]
  rw [hp, hd]
  rfl

/-- C10 witness: the empty input on the one-pool environment. -/
theorem C10_empty_input_noop_witness :
    ((SchedulingInput.mk [] [] []).PendingPods = [] ∧
      (SchedulingInput.mk [] [] []).DeletingNodePods = []) ∧
    ComputeSchedulingDecision envOK none none ⟨[], [], []⟩ =
      (some { Results := ⟨[], [], []⟩, NoNodePoolsFound := false,
              AllPods := [], Error := none }, none) :=
  ⟨by decide,
   C10_empty_input_noop envOK none none ⟨[], [], []⟩ rfl rfl⟩

end Karpenter
